import Mathlib

/-!
# happy: lifecycle orchestrator (`happy/app/app_shared.go`)

A shallow embedding of `Application.start` (addon loading loop),
`Application.prepareCommand`, `Application.execute`,
`Application.executeBeforeFn` and `Application.executeAfterAlwaysFn`.

The Go code mutates an `*Application` and may leave the normal control flow
in two ways: `a.Exit(code, err)` ends the process, and a method call on a nil
interface value is a runtime panic.  Both are explicit in the embedding: a
procedure is a function from the process state to either a value with the
next state, or a halt with the state at that point.
-/

namespace Happy

/-- A Go `error` value, identified by its message; `nil` is `none` of `Option Error`. -/
abbrev Error := String

/-- The five hook slots of a command. -/
inductive Hook where
  | Before
  | Do
  | AfterSuccess
  | AfterFailure
  | AfterAlways
  deriving DecidableEq, Repr

/-- The outcome of each hook method of a command in a run: the error it
returns, or nil.  An absent hook is an automatic success. -/
structure Hooks where
  Before : Option Error := none
  Do : Option Error := none
  AfterSuccess : Option Error := none
  AfterFailure : Option Error := none
  AfterAlways : Option Error := none
  deriving DecidableEq, Repr

/-- Modelled from the spec: the `happy.Command` implementation is not in the
sources.  A command has an identity (`ptr`, the pointer held by the interface
value), a name (what `String()` returns), a mapping name → Command of
subcommands, the outcome of `Verify()` and five hook slots;
`ExecuteXFn(session)` returns the hook's error or nil.  Each hook of a command
is called at most once per run, so its outcome is a value. -/
inductive Command where
  | mk (ptr : Nat) (name : String) (subCommands : List (String × Command))
      (verify : Option Error) (hooks : Hooks)

namespace Command

def ptr : Command → Nat
  | mk p _ _ _ _ => p

def subCommands : Command → List (String × Command)
  | mk _ _ s _ _ => s

def Verify : Command → Option Error
  | mk _ _ _ v _ => v

def hooks : Command → Hooks
  | mk _ _ _ _ h => h

def ExecuteBeforeFn (c : Command) : Option Error := c.hooks.Before

def ExecuteDoFn (c : Command) : Option Error := c.hooks.Do

def ExecuteAfterSuccessFn (c : Command) : Option Error := c.hooks.AfterSuccess

def ExecuteAfterFailureFn (c : Command) : Option Error := c.hooks.AfterFailure

def ExecuteAfterAlwaysFn (c : Command) : Option Error := c.hooks.AfterAlways

/-- The outcome of the hook method `h` of a command. -/
def hook (c : Command) : Hook → Option Error
  | .Before => c.ExecuteBeforeFn
  | .Do => c.ExecuteDoFn
  | .AfterSuccess => c.ExecuteAfterSuccessFn
  | .AfterFailure => c.ExecuteAfterFailureFn
  | .AfterAlways => c.ExecuteAfterAlwaysFn

/-- Modelled from the spec: `GetSubCommand(name) (cmd, exists)` is a lookup in
the command's name → Command mapping; a missing key reports `exists = false`
and yields no command (the nil interface value). -/
def GetSubCommand (c : Command) (name : String) : Option Command × Bool :=
  match c.subCommands.lookup name with
  | some d => (some d, true)
  | none => (none, false)

end Command

/-- The text of `cmd.String()`: the command's name. -/
def Command.String : Command → String
  | .mk _ n _ _ _ => n

/-- Go's `==` on two `happy.Command` interface values: both nil, or both
non-nil and holding the same pointer. -/
def sameCmd : Option Command → Option Command → Bool
  | none, none => true
  | some c, some d => c.ptr == d.ptr
  | _, _ => false

/-- One default setting declared by an addon: its key and `Default()` value. -/
structure Setting where
  Key : String
  Default : String
  deriving DecidableEq, Repr

/-- Modelled from the spec: the addon interface is not in the sources.  An
addon has a slug, the list `DefaultSettings(session)` returns
(`settings.General.Settings`), the predicate `Configured(session)` (a function
of the session settings), the result of `Commands()` and its services together
with the outcome of registering them with the service manager. -/
structure Addon where
  Slug : String
  Version : String
  DefaultSettings : List Setting
  Configured : List (String × String) → Bool
  Commands : Except Error (List Command)
  Services : Nat
  Register : Option Error

/-- The fields of `*Application` the orchestrator reads and writes. -/
structure Application where
  /-- The application slug, `a.config.Slug`. -/
  Slug : String
  /-- The top-level command map `a.commands`. -/
  commands : List (String × Command)
  rootCmd : Option Command
  currentCmd : Option Command
  /-- The error accumulator `a.errors`, oldest first. -/
  errors : List Error
  /-- The session settings map `a.session.Settings()`. -/
  settings : List (String × String)
  /-- The names of the flag sets of `a.flags.GetActiveSetTree()`. -/
  activeSetTree : List String
  /-- Whether `a.Flag("services-keep-alive").Present()`. -/
  keepAlive : Bool
  /-- The number of registered services, `a.ServiceManager().Len()`. -/
  services : Nat
  /-- The outcome of `a.ServiceManager().Initialize(...)`. -/
  Initialize : Option Error
  /-- The sentinel `cli.ErrCommand`, whose text is not in the sources. -/
  ErrCommand : Error
  /-- The sentinel `config.ErrInvalidSettingsKey`, whose text is not in the sources. -/
  ErrInvalidSettingsKey : Error
  /-- The flag `a.started`. -/
  started : Bool := false
  /-- The flag sets added to the global flag set by `a.flags.AddSet`, each named
  by the command it came from. -/
  flagSets : List String := []

/-- A record written through `a.Log()`. -/
inductive LogEntry where
  | Error (err : Error)
  | NotImplemented (msg : String)
  | SystemDebug (msg : String)
  deriving DecidableEq, Repr

/-- The receiver expression of a hook call in the source. -/
inductive Receiver where
  | rootCmd
  | currentCmd
  deriving DecidableEq, Repr

/-- A running process: the application together with what an observer has
seen so far.  The observations take no part in the control flow. -/
structure Proc where
  app : Application
  /-- The log, oldest first. -/
  logged : List LogEntry
  /-- The hook methods called, in call order. -/
  calls : List (Receiver × Hook)
  /-- The successive values of the local variable `code`, declaration first. -/
  codes : List Nat
  /-- The keys looked up in a command map by `prepareCommand`, in order. -/
  lookups : List String
  /-- The `Settings().Set(key, value)` calls, in order. -/
  sets : List (String × String)
  /-- Whether `a.session.Start` has been called. -/
  sessionStartCalled : Bool := false

/-- A process at the entry of the orchestrator: nothing observed yet. -/
def boot (a : Application) : Proc :=
  { app := a, logged := [], calls := [], codes := [], lookups := [], sets := [] }

/-- How the normal control flow is left. -/
inductive Halt where
  /-- The process was ended by `a.Exit(code, err)`. -/
  | exit (code : Nat) (err : Option Error)
  /-- A runtime panic. -/
  | panic (reason : String)
  deriving DecidableEq, Repr

/-- The result of running a procedure: it returned `v`, or control left it. -/
inductive Res (α : Type) where
  | ok (v : α) (p : Proc)
  | halt (h : Halt) (p : Proc)

namespace Res

/-- The process state when the procedure returned or halted. -/
def proc {α : Type} : Res α → Proc
  | ok _ p => p
  | halt _ p => p

def halted {α : Type} : Res α → Option Halt
  | ok _ _ => none
  | halt h _ => some h

/-- The code the process exited with, if it exited. -/
def exitCode {α : Type} : Res α → Option Nat
  | halt (.exit c _) _ => some c
  | _ => none

/-- The returned value, if the procedure returned. -/
def value {α : Type} : Res α → Option α
  | ok v _ => some v
  | halt _ _ => none

end Res

/-- A procedure over the process state. -/
def M (α : Type) : Type := Proc → Res α

namespace M

def pure {α : Type} (v : α) : M α := fun p => .ok v p

def bind {α β : Type} (x : M α) (f : α → M β) : M β := fun p =>
  match x p with
  | .ok v q => f v q
  | .halt h q => .halt h q

end M

instance : Monad M where
  pure := M.pure
  bind := M.bind

/-- Read the application. -/
def getApp : M Application := fun p => .ok p.app p

/-- Update the application. -/
def modifyApp (f : Application → Application) : M Unit :=
  fun p => .ok () { p with app := f p.app }

/-- Write a record through `a.Log()`. -/
def log (e : LogEntry) : M Unit :=
  fun p => .ok () { p with logged := p.logged ++ [e] }

/-- A runtime panic. -/
def panic {α : Type} (reason : String) : M α := fun p => .halt (.panic reason) p

/-- Modelled from the spec: `Application.Exit` is not in the sources; it
performs the actual process termination with the given code and error
payload, so nothing after the call runs. -/
def Exit {α : Type} (code : Nat) (err : Option Error) : M α :=
  fun p => .halt (.exit code err) p

/-- Observation: the local variable `code` now holds `c`. -/
def observeCode (c : Nat) : M Unit :=
  fun p => .ok () { p with codes := p.codes ++ [c] }

/-- Observation: a command map was asked for `key`. -/
def observeLookup (key : String) : M Unit :=
  fun p => .ok () { p with lookups := p.lookups ++ [key] }

/-- Observation: `Settings().Set(key, value)` was called. -/
def observeSet (key value : String) : M Unit :=
  fun p => .ok () { p with sets := p.sets ++ [(key, value)] }

/-- The method call `recv.ExecuteXFn(a.session)`: a call on a nil interface
value is a nil dereference; otherwise the call is observed and the hook's
error (or nil) returned. -/
def callHook (r : Receiver) (h : Hook) : M (Option Error) := fun p =>
  let recv := match r with
    | .rootCmd => p.app.rootCmd
    | .currentCmd => p.app.currentCmd
  match recv with
  | none => .halt (.panic "nil pointer dereference") p
  | some c => .ok (c.hook h) { p with calls := p.calls ++ [(r, h)] }

/-- Go: `func (a *Application) addAppErr(err error)`. -/
def addAppErr (err : Option Error) : M Unit :=
  match err with
  | none => pure ()
  | some e => modifyApp fun a => { a with errors := a.errors ++ [e] }

/-- Go: `func (a *Application) executeBeforeFn()`. -/
def executeBeforeFn : M Unit := do
  let a ← getApp
  if a.rootCmd.isSome && !sameCmd a.currentCmd a.rootCmd then
    match ← callHook .rootCmd .Before with
    | some err => Exit 1 (some err)
    | none => pure ()
  match ← callHook .currentCmd .Before with
  | some err => Exit 1 (some err)
  | none => pure ()

/-- Go: `func (a *Application) executeAfterAlwaysFn(code int)`. -/
def executeAfterAlwaysFn (code : Nat) : M Unit := do
  let mut code := code
  match ← callHook .currentCmd .AfterAlways with
  | some err =>
    log (.Error err)
    code := 1
    observeCode code
  | none => pure ()
  let a ← getApp
  if a.rootCmd.isSome && !sameCmd a.currentCmd a.rootCmd then
    match ← callHook .rootCmd .AfterAlways with
    | some err => Exit 1 (some err)
    | none => pure ()
  if a.keepAlive && code == 0 then
    modifyApp fun a => { a with keepAlive := false }
    log (.SystemDebug "UI exited with code(0), but service is in keep-alive mode, continue exec")
    log (.NotImplemented "executeAfterAlwaysFn services-keep-alive not implemented")
  Exit code none

/-- Go: `func (a *Application) execute()`.  The call of `printEnv`, which only
writes to standard output, is left out. -/
def execute : M Unit := do
  let a ← getApp
  -- initialize services
  if a.services > 0 then
    log (.NotImplemented "service manager not implemented")
  else
    log (.SystemDebug ("initialize " ++ toString a.services ++ " services"))
    match a.Initialize with
    | some err => Exit 1 (some err)
    | none => pure ()
  -- app before runs always
  executeBeforeFn
  let mut code := 0
  observeCode code
  let isRootCmd := sameCmd a.currentCmd a.rootCmd
  match ← callHook .currentCmd .Do with
  | some err =>
    addAppErr (some err)
    code := 2
    observeCode code
    match ← callHook .currentCmd .AfterFailure with
    | some err =>
      addAppErr (some err)
      code := 1
      observeCode code
    | none => pure ()
    if a.rootCmd.isSome && !isRootCmd then
      match ← callHook .rootCmd .AfterFailure with
      | some err => addAppErr (some err)
      | none => pure ()
  | none =>
    code := 0
    observeCode code
    match ← callHook .currentCmd .AfterSuccess with
    | some err =>
      addAppErr (some err)
      code := 1
      observeCode code
    | none => pure ()
    if a.rootCmd.isSome && !isRootCmd then
      addAppErr (← callHook .rootCmd .AfterSuccess)
  executeAfterAlwaysFn code

/-- Modelled from the spec: `Settings().Has(key)` on the key-value settings
map of the session. -/
def Settings.Has (settings : List (String × String)) (key : String) : Bool :=
  (settings.lookup key).isSome

/-- Modelled from the spec: `Settings().Set(key, value)` on the key-value
settings map of the session; the key is bound to the value, whatever it was
bound to before. -/
def Settings.Set (settings : List (String × String)) (key value : String) :
    List (String × String) :=
  (key, value) :: settings.filter fun kv => kv.1 != key

/-- Modelled from the spec: `a.AddCommand(cmd)` inserts the command into the
top-level command map under its name. -/
def AddCommand (cmd : Command) : M Unit :=
  modifyApp fun a =>
    { a with commands := (cmd.String, cmd) :: a.commands.filter fun kv => kv.1 != cmd.String }

/-- Go: `strings.Join([]string{"addon", addon.Slug(), setting.Key}, ".")`. -/
def settingKey (slug key : String) : String :=
  ".".intercalate ["addon", slug, key]

/-- Go, in `Application.start`: the loop
`for _, setting := range settings.General.Settings` over the defaults of the
addon with the given slug.  `ValidSettingKey` is `config.ValidSettingKey`,
which is not in the sources. -/
def loadSettings (ValidSettingKey : String → Bool) (slug : String) : List Setting → M Unit
  | [] => pure ()
  | setting :: rest => do
    let key := settingKey slug setting.Key
    if !ValidSettingKey key then
      Exit 1 (some ((← getApp).ErrInvalidSettingsKey ++ ": " ++ key))
    if !Settings.Has (← getApp).settings key then
      log (.SystemDebug ("setting default for " ++ key))
      modifyApp fun a => { a with settings := Settings.Set a.settings key setting.Default }
      observeSet key setting.Default
    loadSettings ValidSettingKey slug rest

/-- Go, in `Application.start`: `for _, cmd := range cmds { a.AddCommand(cmd) }`. -/
def addCommands : List Command → M Unit
  | [] => pure ()
  | cmd :: rest => do
    AddCommand cmd
    addCommands rest

/-- Go, in `Application.start`: the loop
`for _, addon := range a.AddonManager().Addons()`.  The value is the error
`start` returns from inside the loop, or nil when the loop runs to its end. -/
def loadAddons (ValidSettingKey : String → Bool) : List Addon → M (Option Error)
  | [] => pure none
  | addon :: rest => do
    log (.SystemDebug ("loading addon " ++ addon.Slug ++ " " ++ addon.Version))
    loadSettings ValidSettingKey addon.Slug addon.DefaultSettings
    if addon.Configured (← getApp).settings then
      match addon.Commands with
      | .error err => return some err
      | .ok cmds =>
        addCommands cmds
        match addon.Register with
        | some err => Exit 1 (some err)
        | none => modifyApp fun a => { a with services := a.services + addon.Services }
        loadAddons ValidSettingKey rest
    else
      log (.SystemDebug ("addon " ++ addon.Slug ++ " is not configured"))
      loadAddons ValidSettingKey rest

/-- The method call `cmd.String()` on an interface value: a nil dereference
when the value is nil. -/
def cmdString : Option Command → M String
  | none => panic "nil pointer dereference"
  | some c => pure c.String

/-- Go, in `Application.prepareCommand`: the loop `for _, set := range settree`
with its local variable `cmd`; `name` is the name of the last flag set of the
tree. -/
def prepareCommandLoop (name : String) : List String → Option Command → M Unit
  | [], _ => pure ()
  | set :: rest, cmd => do
    -- skip root
    if set == "/" then
      prepareCommandLoop name rest cmd
    else
      match cmd with
      | none =>
        observeLookup set
        match (← getApp).commands.lookup set with
        | none =>
          addAppErr (some ((← getApp).ErrCommand ++ ": unknown command (" ++ name ++ ")"))
        | some cmd =>
          modifyApp fun a => { a with currentCmd := some cmd }
          prepareCommandLoop name rest (some cmd)
      | some parent =>
        observeLookup set
        let (cmd, found) := parent.GetSubCommand set
        if !found then
          let parentName ← cmdString cmd
          addAppErr (some ((← getApp).ErrCommand ++ ": unknown subcommand (" ++ name ++ ") for "
            ++ parentName))
        else
          modifyApp fun a => { a with currentCmd := cmd }
          prepareCommandLoop name rest cmd

/-- Go: `func (a *Application) prepareCommand()`. -/
def prepareCommand : M Unit := do
  let a ← getApp
  let settree := a.activeSetTree
  match settree.getLast? with
  | none => panic "index out of range [-1]"
  | some name =>
    if name != "/" then
      prepareCommandLoop name settree none
    else
      observeLookup a.Slug
      match a.commands.lookup a.Slug with
      | none =>
        -- Not having root command is not a error.
        pure ()
      | some cmd => modifyApp fun a => { a with currentCmd := some cmd }

/-- The result of `a.flags.Parse(os.Args)` as `start` tests it: nil, an error
for which `errors.Is(err, varflag.ErrFlagAlreadyParsed)` holds, or any other
error. -/
inductive ParseResult where
  | ok
  | flagAlreadyParsed (err : Error)
  | failed (err : Error)
  deriving DecidableEq, Repr

/-- Modelled from the spec: what the collaborators called by `start` and `run`
answer in a run; none of them is in the sources.  `showBashCompletion` is
`a.Flag("show-bash-completion").Present()`; `Help` tells whether
`cli.Help(a.session)` displays the help, which ends the process with code 0;
`SessionStart` is the result of `a.session.Start(...)`; `setupAction` is nil
(`none`) or the result of calling it.  `rangeCommands` is the order in which
the Go runtime yields the entries of the command map to a `range` loop: the
language leaves it unspecified, so it is any rearrangement of the entries. -/
structure World where
  ValidSettingKey : String → Bool
  showBashCompletion : Bool
  Parse : ParseResult
  Help : Bool
  SessionStart : Option Error
  setupAction : Option (Option Error)
  rangeCommands : List (String × Command) → List (String × Command)
  rangeCommands_perm : ∀ m, (rangeCommands m).Perm m

/-- Observation: `a.session.Start` is called. -/
def observeSessionStart : M Unit :=
  fun p => .ok () { p with sessionStartCalled := true }

/-- Go, in `Application.start`: the body of the loop
`for _, cmd := range a.commands` that verifies the commands, run over the
entries in the order in which the range yields them. -/
def verifyCommands : List (String × Command) → M Unit
  | [] => pure ()
  | (_, cmd) :: rest => do
    match cmd.Verify with
    | some err => addAppErr (some err)
    | none => modifyApp fun a => { a with flagSets := a.flagSets ++ [cmd.String] }
    verifyCommands rest

/-- Go: `func (a *Application) run() error`.  `go a.execute()` followed by the
blocking `appmain()` is taken in sequence: `execute` runs until it ends the
process.  The debug record of the startup time is left out. -/
def run (w : World) : M (Option Error) := do
  -- call app setup fn
  match w.setupAction with
  | some (some err) => return some err
  | _ => pure ()
  -- Start application main process
  execute
  return none

/-- Go, in `Application.start`: from the test of the error accumulator to the
end of the function (lines 169-193), the part after command resolution. -/
def startSession (w : World) : M (Option Error) := do
  if (← getApp).errors.length > 0 then
    return some "failed to prepare command"
  -- run root command if do fn exits
  if (← getApp).currentCmd.isNone then
    modifyApp fun a => { a with currentCmd := a.rootCmd }
  -- Shall we display default help if so print it and exit with 0
  if w.Help then
    Exit 0 none
  if (← getApp).currentCmd.isNone then
    return some "no command, see (--help) for available commands"
  observeSessionStart
  match w.SessionStart with
  | some err => return some err
  | none => pure ()
  run w

/-- Go, in `Application.start`: from the verification of the commands to the
end of the function (lines 152-193), the part after the addon loop.  The
`a.Log().Issue` note is left out. -/
def startCommands (w : World) : M (Option Error) := do
  -- verify configuration of commands
  verifyCommands (w.rangeCommands (← getApp).commands)
  match w.Parse with
  | .failed err => return some err
  | _ => pure ()
  prepareCommand
  startSession w

/-- Go: `func (a *Application) start() error`.  The value is the error
returned, or nil.  The completion script `bashcompletion` writes is output
only and left out. -/
def start (w : World) (addons : List Addon) : M (Option Error) := do
  if (← getApp).started then
    return some "app is already running"
  modifyApp fun a => { a with started := true }
  if w.showBashCompletion then
    Exit 0 none
  match ← loadAddons w.ValidSettingKey addons with
  | some err => return some err
  | none => pure ()
  startCommands w

/-- What `prepareCommand` does to a process, whatever the rest of its state:
how it ends, the errors it appends, the current command it sets (if any) and
the keys it looks up. -/
structure Effect where
  halt : Option Halt
  errs : List Error
  cur : Option Command
  lookups : List String

/-- The result of a procedure with the given effect, run from `p`. -/
def Effect.apply (e : Effect) (p : Proc) : Res Unit :=
  match e.halt with
  | none => .ok ()
      { p with
        app := { p.app with
          errors := p.app.errors ++ e.errs
          currentCmd := match e.cur with
            | none => p.app.currentCmd
            | some c => some c }
        lookups := p.lookups ++ e.lookups }
  | some h => .halt h
      { p with
        app := { p.app with
          errors := p.app.errors ++ e.errs
          currentCmd := match e.cur with
            | none => p.app.currentCmd
            | some c => some c }
        lookups := p.lookups ++ e.lookups }

/-- The procedure looks up no command: however it ends, the trace of lookups
is as it was. -/
structure NoLookup {α : Type} (x : M α) : Prop where
  keeps : ∀ p, (x p).proc.lookups = p.lookups

/-- Nothing outside the application was observed between `p` and `q`: no hook
call, no command lookup, no session start. -/
def Untouched (p q : Proc) : Prop :=
  q.calls = p.calls ∧ q.lookups = p.lookups ∧ q.sessionStartCalled = p.sessionStartCalled

/-- One assignment to the working exit code: the value does not decrease, or
it goes from 2 to 1. -/
def codeStep (x y : Nat) : Prop := x ≤ y ∨ (x = 2 ∧ y = 1)

instance : DecidableRel codeStep := fun x y => by
  unfold codeStep
  exact inferInstance

/-- The trace of the working exit code of a run: empty when the run ends
before `var code int`, else starting at 0, every assignment a `codeStep`. -/
def CodesOk (cs : List Nat) : Prop :=
  (cs = [] ∨ cs.head? = some 0) ∧ List.Chain' codeStep cs

/-- The defaults an addon declares, as pairs of namespaced key and value, in
the order of its list. -/
def addonDefaults (addon : Addon) : List (String × String) :=
  addon.DefaultSettings.map fun setting => (settingKey addon.Slug setting.Key, setting.Default)

/-- The defaults declared by a list of addons, in registration order; a lookup
in it finds the default of the first registered addon declaring the key. -/
def declaredDefaults (addons : List Addon) : List (String × String) :=
  addons.flatMap addonDefaults

/-- State `q` comes from state `p` by layering the defaults `ds` under the
settings of `p`: a key of `p` keeps its value, any other key has the first
value `ds` gives it; and every `Set` call made on the way was for a key absent
from `p`, with the first value `ds` gives it, no key being set twice. -/
def Layered (p q : Proc) (ds : List (String × String)) : Prop :=
  (∀ k, q.app.settings.lookup k = (p.app.settings.lookup k).or (ds.lookup k)) ∧
  ∃ new, q.sets = p.sets ++ new ∧
    (∀ kv ∈ new, p.app.settings.lookup kv.1 = none ∧ ds.lookup kv.1 = some kv.2) ∧
    (new.map Prod.fst).Nodup

/-- Walk down the subcommand maps from a command along the given segments. -/
def descend : Command → List String → Option Command
  | c, [] => some c
  | c, s :: rest =>
    match c.subCommands.lookup s with
    | none => none
    | some d => descend d rest

/-! ## Example inputs -/

/-- An application with no command, no addon setting and no service. -/
def app0 : Application :=
  { Slug := "app", commands := [], rootCmd := none, currentCmd := none, errors := [],
    settings := [], activeSetTree := ["/"], keepAlive := false, services := 0,
    Initialize := none, ErrCommand := "command error",
    ErrInvalidSettingsKey := "invalid settings key" }

/-- A root command whose hooks all succeed. -/
def rootOk : Command := .mk 1 "app" [] none {}

/-- A command whose Do and AfterFailure hooks both fail. -/
def cmdDoAndAfterFailureFail : Command :=
  .mk 2 "serve" [] none { Do := some "do failed", AfterFailure := some "after failure failed" }

/-- A command whose Before hook fails. -/
def cmdBeforeFails : Command := .mk 2 "serve" [] none { Before := some "before failed" }

/-- A command whose Do hook fails. -/
def cmdDoFails : Command := .mk 2 "serve" [] none { Do := some "do failed" }

/-- A root command whose AfterFailure hook fails. -/
def rootAfterFailureFails : Command :=
  .mk 1 "app" [] none { AfterFailure := some "root after failure failed" }

/-- A command whose AfterSuccess hook fails. -/
def cmdAfterSuccessFails : Command :=
  .mk 2 "serve" [] none { AfterSuccess := some "after success failed" }

/-- A command whose AfterAlways hook fails. -/
def cmdAfterAlwaysFails : Command :=
  .mk 2 "serve" [] none { AfterAlways := some "after always failed" }

/-- A root command whose AfterAlways hook fails. -/
def rootAfterAlwaysFails : Command :=
  .mk 1 "app" [] none { AfterAlways := some "root after always failed" }

/-- A command whose hooks all succeed and that has no subcommand. -/
def cmdOk : Command := .mk 2 "serve" [] none {}

/-- A run for C1: no root command, Do and AfterFailure of the current command fail. -/
def appCodeDecreases : Application :=
  { app0 with currentCmd := some cmdDoAndAfterFailureFail }

/-- A run for C2: the current command's Before hook fails. -/
def appBeforeFails : Application :=
  { app0 with rootCmd := some rootOk, currentCmd := some cmdBeforeFails }

/-- A run for C3: Do fails and the root's AfterFailure fails. -/
def appDoFails : Application :=
  { app0 with rootCmd := some rootAfterFailureFails, currentCmd := some cmdDoFails }

/-- A run for C4: AfterSuccess fails, keep-alive active. -/
def appAfterSuccessFails : Application :=
  { app0 with rootCmd := some rootOk, currentCmd := some cmdAfterSuccessFails,
              keepAlive := true }

/-- A run for C5: the current command's AfterAlways fails, keep-alive active. -/
def appAfterAlwaysFails : Application :=
  { app0 with rootCmd := some rootOk, currentCmd := some cmdAfterAlwaysFails,
              keepAlive := true }

/-- A run for C6: the root's AfterAlways fails, keep-alive active. -/
def appRootAfterAlwaysFails : Application :=
  { app0 with rootCmd := some rootAfterAlwaysFails, currentCmd := some cmdOk,
              keepAlive := true }

/-- A run for C7: a root and a current command, Do failing. -/
def appOrder : Application :=
  { app0 with rootCmd := some rootOk, currentCmd := some cmdDoFails }

/-- An addon declaring the key `k` twice, not configured. -/
def addonFirst : Addon :=
  { Slug := "one", Version := "v1", DefaultSettings := [⟨"k", "1"⟩, ⟨"k", "2"⟩],
    Configured := fun _ => false, Commands := .ok [], Services := 0, Register := none }

/-- An addon with the same slug declaring `k` and `j`, configured, with one command. -/
def addonSecond : Addon :=
  { Slug := "one", Version := "v2", DefaultSettings := [⟨"k", "3"⟩, ⟨"j", "4"⟩],
    Configured := fun _ => true, Commands := .ok [cmdOk], Services := 0, Register := none }

/-- A run for C8: the user has set `addon.one.j`. -/
def appUserSetting : Application :=
  { app0 with settings := [("addon.one.j", "user")] }

/-- A run for C9: `serve` is registered without subcommands, the path asks for
`serve http`. -/
def appUnknownSubcommand : Application :=
  { app0 with commands := [("serve", cmdOk)], activeSetTree := ["/", "serve", "http"] }

/-- A run for C10: no command is registered, the path asks for `foo bar`. -/
def appUnknownCommand : Application :=
  { app0 with activeSetTree := ["/", "foo", "bar"] }

/-- A command `http` without subcommands. -/
def cmdHttp : Command := .mk 3 "http" [] none {}

/-- A command `serve` with the one subcommand `http`. -/
def cmdServeHttp : Command := .mk 2 "serve" [("http", cmdHttp)] none {}

/-- A run for C11: `serve http` resolves, the path goes on to `tls`. -/
def appUnknownAtDepthThree : Application :=
  { app0 with commands := [("serve", cmdServeHttp)],
              activeSetTree := ["/", "serve", "http", "tls"] }

/-- A run for C12: the path `serve http` resolves. -/
def appResolves : Application :=
  { app0 with commands := [("serve", cmdServeHttp)], activeSetTree := ["/", "serve", "http"] }

/-- A run for C13: the path is the root marker and a command is registered
under the application's slug. -/
def appRootCommand : Application :=
  { app0 with commands := [("app", rootOk)] }

/-- The working exit code at the end of `executeAfterAlwaysFn`, entered with
`code`: 1 when the current command's AfterAlways fails, else `code`. -/
def workingCode (cur : Command) (code : Nat) : Nat :=
  if cur.ExecuteAfterAlwaysFn = none then code else 1

/-- The working exit code `execute` hands to `executeAfterAlwaysFn`. -/
def doCode (cur : Command) : Nat :=
  if cur.ExecuteDoFn = none then
    if cur.ExecuteAfterSuccessFn = none then 0 else 1
  else
    if cur.ExecuteAfterFailureFn = none then 2 else 1

/-- The exit code of a run of `execute` with a root command other than the
current command, the services initialised. -/
def finalCode (cur root : Command) : Nat :=
  if root.ExecuteBeforeFn = none ∧ cur.ExecuteBeforeFn = none then
    if root.ExecuteAfterAlwaysFn = none then workingCode cur (doCode cur) else 1
  else 1

/-- The command with its hook outcomes replaced. -/
def Command.withHooks : Command → Hooks → Command
  | .mk p n s v _, h => .mk p n s v h

/-- A run for C16: every hook succeeds and keep-alive is active. -/
def appKeepAlive : Application :=
  { app0 with rootCmd := some rootOk, currentCmd := some cmdOk, keepAlive := true }

/-- A root command whose AfterSuccess hook fails. -/
def rootAfterSuccessFails : Command :=
  .mk 1 "app" [] none { AfterSuccess := some "root after success failed" }

/-- A run for C19: only the root's AfterSuccess fails. -/
def appRootAfterSuccessFails : Application :=
  { app0 with rootCmd := some rootAfterSuccessFails, currentCmd := some cmdOk }

/-- A command whose Do and AfterAlways hooks fail. -/
def cmdDoAndAfterAlwaysFail : Command :=
  .mk 2 "serve" [] none { Do := some "do failed", AfterAlways := some "after always failed" }

/-- A run for C20: Do fails, AfterFailure succeeds, AfterAlways fails. -/
def appDoAndAfterAlwaysFail : Application :=
  { app0 with rootCmd := some rootOk, currentCmd := some cmdDoAndAfterAlwaysFail }

/-- A world in which every collaborator succeeds, no help is displayed and the
command map is ranged over in the order of its list. -/
def world0 : World :=
  { ValidSettingKey := fun _ => true, showBashCompletion := false, Parse := .ok,
    Help := false, SessionStart := none, setupAction := none,
    rangeCommands := fun m => m, rangeCommands_perm := fun m => List.Perm.refl m }

/-- A world in which the argument parser fails with an error other than
"flag already parsed". -/
def worldParseFails : World :=
  { world0 with Parse := .failed "unknown flag" }

/-- A world in which the argument parser fails with the "flag already parsed"
condition. -/
def worldFlagAlreadyParsed : World :=
  { world0 with Parse := .flagAlreadyParsed "flag already parsed" }

/-- A world in which the command map is ranged over in the reverse of the
order of its list. -/
def worldReversed : World :=
  { world0 with rangeCommands := List.reverse, rangeCommands_perm := List.reverse_perm }

/-- A command that fails `Verify`. -/
def cmdBad : Command := .mk 4 "bad" [] (some "bad: flag name conflict") {}

/-- A run for C15: one passing and one failing top-level command. -/
def appBadCommand : Application :=
  { app0 with commands := [("serve", cmdOk), ("bad", cmdBad)] }

/-- A run in which one top-level command fails `Verify` and the path asks for
a subcommand `http` that `serve` does not have. -/
def appBadCommandUnknownSubcommand : Application :=
  { app0 with commands := [("serve", cmdOk), ("bad", cmdBad)],
              activeSetTree := ["/", "serve", "http"] }

/-- The application `appBadCommandUnknownSubcommand` once `start` has set its
started flag. -/
def appBadCommandUnknownSubcommandStarted : Application :=
  { appBadCommandUnknownSubcommand with started := true }

/-- The application `appResolves` once `start` has set its started flag. -/
def appResolvesStarted : Application := { appResolves with started := true }

/-- The application `app0` once `start` has set its started flag. -/
def app0Started : Application := { app0 with started := true }

/-- The application `appBadCommand` once `start` has set its started flag. -/
def appBadCommandStarted : Application := { appBadCommand with started := true }

/-! ## Stepping through procedures -/

theorem M.bind_apply {α β : Type} (x : M α) (f : α → M β) (p : Proc) :
    (x >>= f) p = match x p with
      | .ok v q => f v q
      | .halt h q => .halt h q := rfl

theorem M.pure_apply {α : Type} (v : α) (p : Proc) : (Pure.pure v : M α) p = .ok v p := rfl

/-- The current command's AfterAlways adds nothing to the trace of the working
code, or the value 1. -/
theorem executeAfterAlwaysFn_codes (c : Nat) (p : Proc) :
    (executeAfterAlwaysFn c p).proc.codes = p.codes ∨
    (executeAfterAlwaysFn c p).proc.codes = p.codes ++ [1] := by
  rcases hc : p.app.currentCmd with _ | cur
  · simp [executeAfterAlwaysFn, callHook, hc, Res.proc, ↓M.bind_apply]
  · rcases haa : cur.hook .AfterAlways with _ | e <;>
    rcases hr : p.app.rootCmd with _ | root <;>
    cases hk : p.app.keepAlive <;>
    simp [executeAfterAlwaysFn, callHook, getApp, modifyApp, log, Exit, observeCode, Res.proc,
      hc, haa, hr, hk, ↓ite_apply, ↓M.bind_apply, ↓M.pure_apply]
    all_goals (try split_ifs)
    all_goals (try rcases hraa : root.hook .AfterAlways with _ | e2)
    all_goals simp [executeAfterAlwaysFn, callHook, getApp, modifyApp, log, Exit, observeCode,
      Res.proc, hc, haa, hr, hk, ↓ite_apply, ↓M.bind_apply, ↓M.pure_apply, *]

theorem executeAfterAlwaysFn_codes_ind (P : List Nat → Prop) (c : Nat) (p : Proc)
    (h1 : P p.codes) (h2 : P (p.codes ++ [1])) : P (executeAfterAlwaysFn c p).proc.codes := by
  rcases executeAfterAlwaysFn_codes c p with h | h <;> rw [h] <;> assumption

/-! ## The hook pipeline -/

/-- C1, as stated, fails: when Do and then AfterFailure fail, the working exit
code is assigned 0, then 2, then 1, so it decreases. -/
theorem execute_code_decreases :
    (execute (boot appCodeDecreases)).proc.codes
        = [0, 2, 1] ∧
    ¬ List.Chain' (fun x y : Nat => x ≤ y)
      (execute (boot appCodeDecreases)).proc.codes := by
  have h : (execute (boot appCodeDecreases)).proc.codes
      = [0, 2, 1] := by decide
  rw [h]
  exact ⟨rfl, by simp⟩

/-- C1, amended: for every application state, the working exit code of
`execute` and `executeAfterAlwaysFn` starts at 0 (when the run gets as far as
its declaration) and every assignment gives it a value greater than or equal
to the value it held before, or takes it from 2 to 1. -/
theorem execute_code_steps (a : Application) :
    ((execute (boot a)).proc.codes = [] ∨ (execute (boot a)).proc.codes.head? = some 0) ∧
    List.Chain' codeStep (execute (boot a)).proc.codes := by
  show CodesOk (execute (boot a)).proc.codes
  by_cases hs : 0 < a.services
  on_goal 2 => rcases hi : a.Initialize with _ | ei
  on_goal 3 =>
    simp [execute, getApp, log, Exit, boot, Res.proc, ↓ite_apply, ↓M.bind_apply,
      ↓M.pure_apply, CodesOk, *]
  all_goals rcases hc : a.currentCmd with _ | cur <;> rcases hr : a.rootCmd with _ | root
  all_goals try by_cases hp : cur.ptr = root.ptr
  all_goals try rcases hrb : root.hook .Before with _ | e1
  all_goals try rcases hcb : cur.hook .Before with _ | e2
  all_goals try (simp [execute, executeBeforeFn, callHook, getApp, modifyApp, log, Exit,
      observeCode, addAppErr, boot, Res.proc, ↓ite_apply, ↓M.bind_apply, ↓M.pure_apply,
      sameCmd, CodesOk, *]; done)
  all_goals rcases hdo : cur.hook .Do with _ | e3
  all_goals
    rcases hafter : cur.hook (match cur.hook .Do with
      | none => Hook.AfterSuccess
      | some _ => Hook.AfterFailure) with _ | e4
  all_goals try
    rcases hrafter : root.hook (match cur.hook .Do with
      | none => Hook.AfterSuccess
      | some _ => Hook.AfterFailure) with _ | e5
  all_goals simp only [hdo] at hafter
  all_goals try simp only [hdo] at hrafter
  all_goals
    simp [execute, executeBeforeFn, callHook, getApp, modifyApp, log, Exit,
      observeCode, addAppErr, boot, ↓ite_apply, ↓M.bind_apply, ↓M.pure_apply, sameCmd, *]
  all_goals apply executeAfterAlwaysFn_codes_ind CodesOk <;> simp [CodesOk, codeStep]

/-- C2: when the current command is not the root command, the services are
initialised, the root's Before hook (if there is a root) succeeds and the
current command's Before hook fails with `e`, the process exits with code 1
and payload `e`; the only hooks called are Before hooks, so no Do,
AfterSuccess, AfterFailure or AfterAlways of either command runs, and the
error accumulator is untouched. -/
theorem execute_current_before_fails (a : Application) (cur : Command) (e : Error)
    (hcur : a.currentCmd = some cur)
    (hne : sameCmd a.currentCmd a.rootCmd = false)
    (hinit : 0 < a.services ∨ a.Initialize = none)
    (hroot : ∀ r, a.rootCmd = some r → r.ExecuteBeforeFn = none)
    (hcb : cur.ExecuteBeforeFn = some e) :
    (execute (boot a)).halted = some (.exit 1 (some e)) ∧
    (execute (boot a)).proc.calls =
      (if a.rootCmd.isSome then [(Receiver.rootCmd, Hook.Before)] else []) ++
        [(Receiver.currentCmd, Hook.Before)] ∧
    (∀ c ∈ (execute (boot a)).proc.calls, c.2 = Hook.Before) ∧
    (execute (boot a)).proc.app.errors = a.errors := by
  rcases hr : a.rootCmd with _ | root
  · rcases hinit with hs | hi
    · simp [execute, executeBeforeFn, callHook, getApp, log, Exit, boot, Res.proc, Res.halted,
        Command.hook, ↓ite_apply, ↓M.bind_apply, ↓M.pure_apply, *]
    · by_cases hs : 0 < a.services <;>
      simp [execute, executeBeforeFn, callHook, getApp, log, Exit, boot, Res.proc, Res.halted,
        Command.hook, ↓ite_apply, ↓M.bind_apply, ↓M.pure_apply, *]
  · have hrb := hroot root hr
    rw [hcur, hr] at hne
    rcases hinit with hs | hi
    · simp [execute, executeBeforeFn, callHook, getApp, log, Exit, boot, Res.proc, Res.halted,
        Command.hook, ↓ite_apply, ↓M.bind_apply, ↓M.pure_apply, *]
    · by_cases hs : 0 < a.services <;>
      simp [execute, executeBeforeFn, callHook, getApp, log, Exit, boot, Res.proc, Res.halted,
        Command.hook, ↓ite_apply, ↓M.bind_apply, ↓M.pure_apply, *]

/-- C2 at a concrete run: root present with all hooks succeeding, the current
command's Before hook failing. -/
theorem execute_current_before_fails_witness :
    (execute (boot appBeforeFails)).halted
        = some (.exit 1 (some "before failed")) ∧
    (execute (boot appBeforeFails)).proc.calls =
      [(Receiver.rootCmd, Hook.Before), (Receiver.currentCmd, Hook.Before)] := by
  have h := execute_current_before_fails
    appBeforeFails
    cmdBeforeFails "before failed" rfl (by decide) (Or.inr rfl)
    (by intro r hr; cases hr; rfl) rfl
  exact ⟨h.1, h.2.1⟩

/-- C3: with current ≠ root, when Do fails with `e1`, the current command's
AfterFailure succeeds, the root's AfterFailure fails with `e2` and both
AfterAlways hooks succeed, the process exits with code 2 and no payload, and
the error accumulator gains exactly `e1` followed by `e2`. -/
theorem execute_do_fails_root_afterFailure_fails (a : Application) (cur root : Command)
    (e1 e2 : Error)
    (hcur : a.currentCmd = some cur) (hroot : a.rootCmd = some root)
    (hne : cur.ptr ≠ root.ptr)
    (hinit : 0 < a.services ∨ a.Initialize = none)
    (hrb : root.ExecuteBeforeFn = none) (hcb : cur.ExecuteBeforeFn = none)
    (hdo : cur.ExecuteDoFn = some e1) (haf : cur.ExecuteAfterFailureFn = none)
    (hraf : root.ExecuteAfterFailureFn = some e2)
    (haa : cur.ExecuteAfterAlwaysFn = none) (hraa : root.ExecuteAfterAlwaysFn = none) :
    (execute (boot a)).halted = some (.exit 2 none) ∧
    (execute (boot a)).proc.app.errors = a.errors ++ [e1, e2] := by
  rcases hinit with hs | hi
  · simp [execute, executeBeforeFn, executeAfterAlwaysFn, callHook, addAppErr, getApp,
      modifyApp, log, Exit, observeCode, boot, sameCmd, Res.halted, Res.proc, Command.hook,
      ↓ite_apply, ↓M.bind_apply, ↓M.pure_apply, *]
  · by_cases hs : 0 < a.services <;>
    simp [execute, executeBeforeFn, executeAfterAlwaysFn, callHook, addAppErr, getApp,
      modifyApp, log, Exit, observeCode, boot, sameCmd, Res.halted, Res.proc, Command.hook,
      ↓ite_apply, ↓M.bind_apply, ↓M.pure_apply, *]

/-- C3 at a concrete run. -/
theorem execute_do_fails_root_afterFailure_fails_witness :
    (execute (boot appDoFails)).halted = some (.exit 2 none) ∧
    (execute (boot appDoFails)).proc.app.errors =
      [] ++ ["do failed", "root after failure failed"] :=
  execute_do_fails_root_afterFailure_fails
    appDoFails
    cmdDoFails rootAfterFailureFails "do failed" "root after failure failed"
    rfl rfl (by decide) (Or.inr rfl) rfl rfl rfl rfl rfl rfl rfl

/-- C4: when the services are initialised, the Before hooks and Do succeed,
the current command's AfterSuccess fails and the AfterAlways hooks succeed,
the process exits with code 1 and no payload, whatever the root's AfterSuccess
returns, whether or not keep-alive is active, and whether the root command is
absent, the current command itself, or another command. -/
theorem execute_afterSuccess_fails (a : Application) (cur : Command) (e : Error)
    (hcur : a.currentCmd = some cur)
    (hinit : 0 < a.services ∨ a.Initialize = none)
    (hroot : ∀ r, a.rootCmd = some r → r.ptr ≠ cur.ptr →
      r.ExecuteBeforeFn = none ∧ r.ExecuteAfterAlwaysFn = none)
    (hcb : cur.ExecuteBeforeFn = none) (hdo : cur.ExecuteDoFn = none)
    (has : cur.ExecuteAfterSuccessFn = some e)
    (haa : cur.ExecuteAfterAlwaysFn = none) :
    (execute (boot a)).halted = some (.exit 1 none) := by
  have hs : 0 < a.services ∨ (¬ 0 < a.services ∧ a.Initialize = none) := by
    by_cases h : 0 < a.services
    · exact Or.inl h
    · exact Or.inr ⟨h, hinit.resolve_left h⟩
  rcases hr : a.rootCmd with _ | root
  · rcases hs with hs | ⟨hs, hi⟩ <;> cases hk : a.keepAlive <;>
    simp [execute, executeBeforeFn, executeAfterAlwaysFn, callHook, addAppErr, getApp,
      modifyApp, log, Exit, observeCode, boot, sameCmd, Res.halted, Res.proc, Command.hook,
      ↓ite_apply, ↓M.bind_apply, ↓M.pure_apply, *]
  · by_cases hp : cur.ptr = root.ptr
    · rcases hs with hs | ⟨hs, hi⟩ <;> cases hk : a.keepAlive <;>
      simp [execute, executeBeforeFn, executeAfterAlwaysFn, callHook, addAppErr, getApp,
        modifyApp, log, Exit, observeCode, boot, sameCmd, Res.halted, Res.proc, Command.hook,
        ↓ite_apply, ↓M.bind_apply, ↓M.pure_apply, *]
    · obtain ⟨hrb, hraa⟩ := hroot root hr (fun h => hp h.symm)
      rcases hs with hs | ⟨hs, hi⟩ <;> cases hk : a.keepAlive <;>
      rcases hras : root.ExecuteAfterSuccessFn with _ | e2 <;>
      simp [execute, executeBeforeFn, executeAfterAlwaysFn, callHook, addAppErr, getApp,
        modifyApp, log, Exit, observeCode, boot, sameCmd, Res.halted, Res.proc, Command.hook,
        ↓ite_apply, ↓M.bind_apply, ↓M.pure_apply, *]

/-- C4 at a concrete run, with keep-alive active. -/
theorem execute_afterSuccess_fails_witness :
    (execute (boot appAfterSuccessFails)).halted = some (.exit 1 none) :=
  execute_afterSuccess_fails
    appAfterSuccessFails
    cmdAfterSuccessFails "after success failed" rfl (Or.inr rfl)
    (by intro r hr _; cases hr; exact ⟨rfl, rfl⟩) rfl rfl rfl rfl

/-- C5: when the services are initialised, every Before hook, Do and the
current command's AfterSuccess succeed, the current command's AfterAlways
fails and the root's AfterAlways succeeds, the process exits with code 1 and no
payload, also when keep-alive is active (the directive is then left set). -/
theorem execute_afterAlways_fails (a : Application) (cur : Command) (e : Error)
    (hcur : a.currentCmd = some cur)
    (hinit : 0 < a.services ∨ a.Initialize = none)
    (hroot : ∀ r, a.rootCmd = some r → r.ptr ≠ cur.ptr →
      r.ExecuteBeforeFn = none ∧ r.ExecuteAfterAlwaysFn = none)
    (hcb : cur.ExecuteBeforeFn = none) (hdo : cur.ExecuteDoFn = none)
    (has : cur.ExecuteAfterSuccessFn = none)
    (haa : cur.ExecuteAfterAlwaysFn = some e) :
    (execute (boot a)).halted = some (.exit 1 none) ∧
    (execute (boot a)).proc.app.keepAlive = a.keepAlive := by
  have hs : 0 < a.services ∨ (¬ 0 < a.services ∧ a.Initialize = none) := by
    by_cases h : 0 < a.services
    · exact Or.inl h
    · exact Or.inr ⟨h, hinit.resolve_left h⟩
  rcases hr : a.rootCmd with _ | root
  · rcases hs with hs | ⟨hs, hi⟩ <;> cases hk : a.keepAlive <;>
    simp [execute, executeBeforeFn, executeAfterAlwaysFn, callHook, addAppErr, getApp,
      modifyApp, log, Exit, observeCode, boot, sameCmd, Res.halted, Res.proc, Command.hook,
      ↓ite_apply, ↓M.bind_apply, ↓M.pure_apply, *]
  · by_cases hp : cur.ptr = root.ptr
    · rcases hs with hs | ⟨hs, hi⟩ <;> cases hk : a.keepAlive <;>
      simp [execute, executeBeforeFn, executeAfterAlwaysFn, callHook, addAppErr, getApp,
        modifyApp, log, Exit, observeCode, boot, sameCmd, Res.halted, Res.proc, Command.hook,
        ↓ite_apply, ↓M.bind_apply, ↓M.pure_apply, *]
    · obtain ⟨hrb, hraa⟩ := hroot root hr (fun h => hp h.symm)
      rcases hs with hs | ⟨hs, hi⟩ <;> cases hk : a.keepAlive <;>
      rcases hras : root.ExecuteAfterSuccessFn with _ | e2 <;>
      simp [execute, executeBeforeFn, executeAfterAlwaysFn, callHook, addAppErr, getApp,
        modifyApp, log, Exit, observeCode, boot, sameCmd, Res.halted, Res.proc, Command.hook,
        ↓ite_apply, ↓M.bind_apply, ↓M.pure_apply, *]

/-- C5 at a concrete run, with keep-alive active. -/
theorem execute_afterAlways_fails_witness :
    (execute (boot appAfterAlwaysFails)).halted = some (.exit 1 none) ∧
    (execute (boot appAfterAlwaysFails)).proc.app.keepAlive = appAfterAlwaysFails.keepAlive :=
  execute_afterAlways_fails appAfterAlwaysFails cmdAfterAlwaysFails "after always failed"
    rfl (Or.inr rfl) (by intro r hr _; cases hr; exact ⟨rfl, rfl⟩) rfl rfl rfl rfl

/-- C6: in `executeAfterAlwaysFn`, for every working code and every keep-alive
state, when the current command is not the root command and the root's
AfterAlways fails with `e`, the process exits there with code 1 and payload
`e`, whatever the working code is; the application, its keep-alive directive
and its error accumulator included, is as it was at entry. -/
theorem executeAfterAlwaysFn_root_fails (code : Nat) (p : Proc) (cur root : Command) (e : Error)
    (hcur : p.app.currentCmd = some cur) (hroot : p.app.rootCmd = some root)
    (hne : cur.ptr ≠ root.ptr)
    (hraa : root.ExecuteAfterAlwaysFn = some e) :
    (executeAfterAlwaysFn code p).halted = some (.exit 1 (some e)) ∧
    (executeAfterAlwaysFn code p).proc.app = p.app ∧
    (executeAfterAlwaysFn code p).proc.calls =
      p.calls ++ [(Receiver.currentCmd, Hook.AfterAlways), (Receiver.rootCmd, Hook.AfterAlways)] := by
  rcases haa : cur.ExecuteAfterAlwaysFn with _ | e2 <;>
  simp [executeAfterAlwaysFn, callHook, getApp, modifyApp, log, Exit, observeCode, sameCmd,
    Res.halted, Res.proc, Command.hook, ↓ite_apply, ↓M.bind_apply, ↓M.pure_apply, *]

/-- C6 at a concrete state: working code 0 and keep-alive active. -/
theorem executeAfterAlwaysFn_root_fails_witness :
    (executeAfterAlwaysFn 0 (boot appRootAfterAlwaysFails)).halted
      = some (.exit 1 (some "root after always failed")) ∧
    (executeAfterAlwaysFn 0 (boot appRootAfterAlwaysFails)).proc.app.keepAlive = true := by
  have h := executeAfterAlwaysFn_root_fails 0 (boot appRootAfterAlwaysFails) cmdOk
    rootAfterAlwaysFails "root after always failed" rfl rfl (by decide) rfl
  exact ⟨h.1, by rw [h.2.1]; rfl⟩

/-- C7: with a root command present, current ≠ root, the services initialised
and no fatal hook failure (root.Before, current.Before and root.AfterAlways
succeed), the hooks called by `execute` are, in this order and each once:
root.Before, current.Before, current.Do, then current.AfterSuccess and
root.AfterSuccess if Do succeeded, or current.AfterFailure and
root.AfterFailure if Do failed, then current.AfterAlways, then
root.AfterAlways. -/
theorem execute_hook_order (a : Application) (cur root : Command)
    (hcur : a.currentCmd = some cur) (hroot : a.rootCmd = some root)
    (hne : cur.ptr ≠ root.ptr)
    (hinit : 0 < a.services ∨ a.Initialize = none)
    (hrb : root.ExecuteBeforeFn = none) (hcb : cur.ExecuteBeforeFn = none)
    (hraa : root.ExecuteAfterAlwaysFn = none) :
    (execute (boot a)).proc.calls =
      [(Receiver.rootCmd, Hook.Before), (Receiver.currentCmd, Hook.Before),
       (Receiver.currentCmd, Hook.Do)] ++
      (if cur.ExecuteDoFn = none
        then [(Receiver.currentCmd, Hook.AfterSuccess), (Receiver.rootCmd, Hook.AfterSuccess)]
        else [(Receiver.currentCmd, Hook.AfterFailure), (Receiver.rootCmd, Hook.AfterFailure)]) ++
      [(Receiver.currentCmd, Hook.AfterAlways), (Receiver.rootCmd, Hook.AfterAlways)] ∧
    (execute (boot a)).proc.calls.Nodup := by
  have hs : 0 < a.services ∨ (¬ 0 < a.services ∧ a.Initialize = none) := by
    by_cases h : 0 < a.services
    · exact Or.inl h
    · exact Or.inr ⟨h, hinit.resolve_left h⟩
  rcases hdo : cur.ExecuteDoFn with _ | e1
  · rcases hs with hs | ⟨hs, hi⟩ <;> cases hk : a.keepAlive <;>
    rcases has : cur.ExecuteAfterSuccessFn with _ | e2 <;>
    rcases hras : root.ExecuteAfterSuccessFn with _ | e3 <;>
    rcases haa : cur.ExecuteAfterAlwaysFn with _ | e4 <;>
    simp [execute, executeBeforeFn, executeAfterAlwaysFn, callHook, addAppErr, getApp,
      modifyApp, log, Exit, observeCode, boot, sameCmd, Res.halted, Res.proc, Command.hook,
      ↓ite_apply, ↓M.bind_apply, ↓M.pure_apply, *]
  · rcases hs with hs | ⟨hs, hi⟩ <;> cases hk : a.keepAlive <;>
    rcases haf : cur.ExecuteAfterFailureFn with _ | e2 <;>
    rcases hraf : root.ExecuteAfterFailureFn with _ | e3 <;>
    rcases haa : cur.ExecuteAfterAlwaysFn with _ | e4 <;>
    simp [execute, executeBeforeFn, executeAfterAlwaysFn, callHook, addAppErr, getApp,
      modifyApp, log, Exit, observeCode, boot, sameCmd, Res.halted, Res.proc, Command.hook,
      ↓ite_apply, ↓M.bind_apply, ↓M.pure_apply, *]

/-- C7 at a concrete run in which Do fails. -/
theorem execute_hook_order_witness :
    (execute (boot appOrder)).proc.calls =
      [(Receiver.rootCmd, Hook.Before), (Receiver.currentCmd, Hook.Before),
       (Receiver.currentCmd, Hook.Do), (Receiver.currentCmd, Hook.AfterFailure),
       (Receiver.rootCmd, Hook.AfterFailure), (Receiver.currentCmd, Hook.AfterAlways),
       (Receiver.rootCmd, Hook.AfterAlways)] :=
  (execute_hook_order appOrder cmdDoFails rootOk rfl rfl (by decide) (Or.inr rfl)
    rfl rfl rfl).1

/-! ## The addon loop of `start` -/

theorem lookup_cons_ite (a b k : String) (es : List (String × String)) :
    ((a, b) :: es).lookup k = if k = a then some b else es.lookup k := by
  rw [List.lookup_cons]
  by_cases h : k = a
  · simp [h]
  · have hb : (k == a) = false := by simpa using h
    simp [h, hb]

theorem lookup_filter_ne (key k : String) (h : k ≠ key) (l : List (String × String)) :
    (l.filter fun kv => kv.1 != key).lookup k = l.lookup k := by
  induction l with
  | nil => rfl
  | cons x xs ih =>
    obtain ⟨x1, x2⟩ := x
    by_cases hx : x1 = key
    · subst hx
      simp [List.filter_cons, lookup_cons_ite, h, ih]
    · by_cases hk : k = x1
      · subst hk
        simp [List.filter_cons, lookup_cons_ite, hx]
      · simp [List.filter_cons, lookup_cons_ite, hx, hk, ih]

theorem lookup_Set (settings : List (String × String)) (key value k : String) :
    (Settings.Set settings key value).lookup k =
      if k = key then some value else settings.lookup k := by
  unfold Settings.Set
  by_cases h : k = key
  · simp [lookup_cons_ite, h]
  · simp [lookup_cons_ite, h, lookup_filter_ne key k h]

theorem Layered.refl (p : Proc) : Layered p p [] :=
  ⟨fun k => by simp, [], by simp, by simp, by simp⟩

theorem Layered.of_eq {p q q' : Proc} {ds : List (String × String)} (h : Layered p q ds)
    (hsettings : q'.app.settings = q.app.settings) (hsets : q'.sets = q.sets) :
    Layered p q' ds := by
  obtain ⟨h1, new, h2, h3, h4⟩ := h
  exact ⟨fun k => by rw [hsettings]; exact h1 k, new, by rw [hsets]; exact h2, h3, h4⟩

theorem Layered.trans {p q r : Proc} {ds es : List (String × String)}
    (h : Layered p q ds) (h' : Layered q r es) : Layered p r (ds ++ es) := by
  obtain ⟨h1, new, h2, h3, h4⟩ := h
  obtain ⟨h1', new', h2', h3', h4'⟩ := h'
  refine ⟨fun k => ?_, new ++ new', ?_, ?_, ?_⟩
  · rw [h1', h1, List.lookup_append, Option.or_assoc]
  · rw [h2', h2, List.append_assoc]
  · intro kv hkv
    rcases List.mem_append.1 hkv with hkv | hkv
    · obtain ⟨ha, hb⟩ := h3 kv hkv
      exact ⟨ha, by rw [List.lookup_append, hb]; rfl⟩
    · obtain ⟨ha, hb⟩ := h3' kv hkv
      rw [h1] at ha
      obtain ⟨ha1, ha2⟩ := Option.or_eq_none.1 ha
      exact ⟨ha1, by rw [List.lookup_append, ha2, hb]; rfl⟩
  · rw [List.map_append, List.nodup_append]
    refine ⟨h4, h4', ?_⟩
    intro k hk hk'
    obtain ⟨kv, hkv, rfl⟩ := List.mem_map.1 hk
    obtain ⟨kv', hkv', hkk⟩ := List.mem_map.1 hk'
    obtain ⟨_, hb⟩ := h3 kv hkv
    obtain ⟨ha', _⟩ := h3' kv' hkv'
    rw [h1, hkk, hb] at ha'
    simp at ha'

/-- The loop over the defaults of one addon, all keys being valid, returns and
layers the addon's defaults under the settings. -/
theorem loadSettings_layered (V : String → Bool) (slug : String) (ds : List Setting)
    (p : Proc) (hv : ∀ s ∈ ds, V (settingKey slug s.Key) = true) :
    ∃ q, loadSettings V slug ds p = .ok () q ∧
      Layered p q (ds.map fun s => (settingKey slug s.Key, s.Default)) := by
  induction ds generalizing p with
  | nil => exact ⟨p, rfl, Layered.refl p⟩
  | cons d rest ih =>
    have hd : V (settingKey slug d.Key) = true := hv d (List.mem_cons_self _ _)
    have hrest : ∀ s ∈ rest, V (settingKey slug s.Key) = true :=
      fun s hs => hv s (List.mem_cons_of_mem _ hs)
    rcases hhas : p.app.settings.lookup (settingKey slug d.Key) with _ | v
    · obtain ⟨q, hq, hl⟩ := ih
        { p with
          app := { p.app with
            settings := Settings.Set p.app.settings (settingKey slug d.Key) d.Default }
          logged := p.logged ++ [.SystemDebug ("setting default for " ++ settingKey slug d.Key)]
          sets := p.sets ++ [(settingKey slug d.Key, d.Default)] } hrest
      refine ⟨q, ?_, ?_⟩
      · simpa [loadSettings, getApp, log, modifyApp, observeSet, Exit, Settings.Has, hd, hhas,
          ↓ite_apply, ↓M.bind_apply, ↓M.pure_apply] using hq
      · have hstep : Layered p
            { p with
              app := { p.app with
                settings := Settings.Set p.app.settings (settingKey slug d.Key) d.Default }
              logged := p.logged ++
                [.SystemDebug ("setting default for " ++ settingKey slug d.Key)]
              sets := p.sets ++ [(settingKey slug d.Key, d.Default)] }
            [(settingKey slug d.Key, d.Default)] := by
          refine ⟨fun k => ?_, [(settingKey slug d.Key, d.Default)], rfl, ?_, by simp⟩
          · by_cases hk : k = settingKey slug d.Key
            · subst hk
              simp [lookup_Set, hhas, lookup_cons_ite]
            · simp [lookup_Set, hk, lookup_cons_ite]
          · intro kv hkv
            rw [List.mem_singleton] at hkv
            subst hkv
            exact ⟨hhas, by simp [lookup_cons_ite]⟩
        exact hstep.trans hl
    · obtain ⟨q, hq, hl⟩ := ih p hrest
      refine ⟨q, ?_, ?_⟩
      · simpa [loadSettings, getApp, log, modifyApp, observeSet, Exit, Settings.Has, hd, hhas,
          ↓ite_apply, ↓M.bind_apply, ↓M.pure_apply] using hq
      · have hstep : Layered p p [(settingKey slug d.Key, d.Default)] := by
          refine ⟨fun k => ?_, [], by simp, by simp, by simp⟩
          by_cases hk : k = settingKey slug d.Key
          · subst hk
            simp [hhas]
          · simp [lookup_cons_ite, hk]
        exact hstep.trans hl




theorem Layered.of_eq_left {p p' q : Proc} {ds : List (String × String)} (h : Layered p q ds)
    (hsettings : p'.app.settings = p.app.settings) (hsets : p'.sets = p.sets) :
    Layered p' q ds := by
  obtain ⟨h1, new, h2, h3, h4⟩ := h
  exact ⟨fun k => by rw [hsettings]; exact h1 k, new, by rw [hsets]; exact h2,
    fun kv hkv => by rw [hsettings]; exact h3 kv hkv, h4⟩

theorem addCommands_frame (cmds : List Command) (p : Proc) :
    ∃ q, addCommands cmds p = .ok () q ∧ q.app.settings = p.app.settings ∧ q.sets = p.sets := by
  induction cmds generalizing p with
  | nil => exact ⟨p, rfl, rfl, rfl⟩
  | cons c rest ih =>
    obtain ⟨q, hq, h1, h2⟩ := ih
      { p with app := { p.app with
          commands := (c.String, c) :: p.app.commands.filter fun kv => kv.1 != c.String } }
    exact ⟨q, by simpa [addCommands, AddCommand, modifyApp, ↓M.bind_apply] using hq, h1, h2⟩

theorem loadAddons_layered (V : String → Bool) (addons : List Addon) (p : Proc)
    (hv : ∀ ad ∈ addons, ∀ s ∈ ad.DefaultSettings, V (settingKey ad.Slug s.Key) = true) :
    ∃ done rest, addons = done ++ rest ∧
      Layered p (loadAddons V addons p).proc (declaredDefaults done) ∧
      ((loadAddons V addons p).value = some none → rest = []) := by
  induction addons generalizing p with
  | nil => exact ⟨[], [], rfl, Layered.refl p, fun _ => rfl⟩
  | cons ad rest ih =>
    have hrest : ∀ ad ∈ rest, ∀ s ∈ ad.DefaultSettings, V (settingKey ad.Slug s.Key) = true :=
      fun x hx => hv x (List.mem_cons_of_mem _ hx)
    obtain ⟨q, hq, hl⟩ := loadSettings_layered V ad.Slug ad.DefaultSettings
      { p with logged := p.logged ++
          [.SystemDebug ("loading addon " ++ ad.Slug ++ " " ++ ad.Version)] }
      (hv ad (List.mem_cons_self _ _))
    have hpq : Layered p q (addonDefaults ad) := hl.of_eq_left rfl rfl
    have hone : declaredDefaults [ad] = addonDefaults ad := by
      simp [declaredDefaults]
    have hcons : ∀ done, declaredDefaults (ad :: done) = addonDefaults ad ++ declaredDefaults done :=
      fun done => by simp [declaredDefaults]
    cases hconf : ad.Configured q.app.settings
    · -- not configured
      obtain ⟨done, rest', hsplit, hlay, hend⟩ := ih
        { q with logged := q.logged ++
            [.SystemDebug ("addon " ++ ad.Slug ++ " is not configured")] } hrest
      have hrun : loadAddons V (ad :: rest) p = loadAddons V rest
          { q with logged := q.logged ++
            [.SystemDebug ("addon " ++ ad.Slug ++ " is not configured")] } := by
        simp [loadAddons, log, getApp, hq, hconf, ↓ite_apply, ↓M.bind_apply, ↓M.pure_apply]
      refine ⟨ad :: done, rest', by rw [hsplit]; rfl, ?_, ?_⟩
      · rw [hrun, hcons]
        exact hpq.trans (hlay.of_eq_left rfl rfl)
      · rw [hrun]; exact hend
    · -- configured
      rcases hcmds : ad.Commands with err | cmds
      · -- `Commands()` fails: `start` returns the error
        have hrun : loadAddons V (ad :: rest) p = .ok (some err) q := by
          simp [loadAddons, log, getApp, hq, hconf, hcmds, ↓ite_apply, ↓M.bind_apply,
            ↓M.pure_apply]
        refine ⟨[ad], rest, rfl, ?_, ?_⟩
        · rw [hrun, hone]; exact hpq
        · rw [hrun]; intro h; simp [Res.value] at h
      · obtain ⟨q2, hq2, hs2, hsets2⟩ := addCommands_frame cmds q
        rcases hreg : ad.Register with _ | err
        · obtain ⟨done, rest', hsplit, hlay, hend⟩ := ih
            { q2 with app := { q2.app with services := q2.app.services + ad.Services } } hrest
          have hrun : loadAddons V (ad :: rest) p = loadAddons V rest
              { q2 with app := { q2.app with services := q2.app.services + ad.Services } } := by
            simp [loadAddons, log, getApp, modifyApp, hq, hconf, hcmds, hq2, hreg, ↓ite_apply,
              ↓M.bind_apply, ↓M.pure_apply]
          refine ⟨ad :: done, rest', by rw [hsplit]; rfl, ?_, ?_⟩
          · rw [hrun, hcons]
            exact hpq.trans (hlay.of_eq_left hs2.symm hsets2.symm)
          · rw [hrun]; exact hend
        · -- registering the services fails: the process exits
          have hrun : loadAddons V (ad :: rest) p = .halt (.exit 1 (some err)) q2 := by
            simp [loadAddons, log, getApp, Exit, hq, hconf, hcmds, hq2, hreg, ↓ite_apply,
              ↓M.bind_apply, ↓M.pure_apply]
          refine ⟨[ad], rest, rfl, ?_, ?_⟩
          · rw [hrun, hone]; exact hpq.of_eq hs2 hsets2
          · rw [hrun]; intro h; simp [Res.value] at h

/-- C8: for every list of addons whose namespaced default keys are all valid
and every initial settings map, after the addon loop of `start` (however it
ends): a key that was present keeps its value; every `Set` call was made for a
key that was absent, with the default of the first registered addon declaring
it, and no key is set twice; a key that was absent and now has a value has the
first registered declaring addon's default; and when the loop runs to its end,
the settings are the initial ones with the first declared default for each
absent declared key. -/
theorem loadAddons_defaults_layered (V : String → Bool) (addons : List Addon)
    (a : Application)
    (hvalid : ∀ ad ∈ addons, ∀ s ∈ ad.DefaultSettings, V (settingKey ad.Slug s.Key) = true) :
    (∀ k v, a.settings.lookup k = some v →
      (loadAddons V addons (boot a)).proc.app.settings.lookup k = some v) ∧
    (∀ kv ∈ (loadAddons V addons (boot a)).proc.sets,
      a.settings.lookup kv.1 = none ∧ (declaredDefaults addons).lookup kv.1 = some kv.2) ∧
    ((loadAddons V addons (boot a)).proc.sets.map Prod.fst).Nodup ∧
    (∀ k v, a.settings.lookup k = none →
      (loadAddons V addons (boot a)).proc.app.settings.lookup k = some v →
      (declaredDefaults addons).lookup k = some v) ∧
    ((loadAddons V addons (boot a)).value = some none →
      ∀ k, (loadAddons V addons (boot a)).proc.app.settings.lookup k =
        (a.settings.lookup k).or ((declaredDefaults addons).lookup k)) := by
  obtain ⟨done, rest, hsplit, ⟨hlook, new, hsets, hnew, hnodup⟩, hend⟩ :=
    loadAddons_layered V addons (boot a) hvalid
  have hdd : declaredDefaults addons = declaredDefaults done ++ declaredDefaults rest := by
    rw [hsplit]; simp [declaredDefaults]
  have hfirst : ∀ k v, (declaredDefaults done).lookup k = some v →
      (declaredDefaults addons).lookup k = some v := by
    intro k v h
    rw [hdd, List.lookup_append, h]; rfl
  have hsets' : (loadAddons V addons (boot a)).proc.sets = new := by
    rw [hsets]; rfl
  refine ⟨?_, ?_, ?_, ?_, ?_⟩
  · intro k v h
    rw [hlook k]
    show ((boot a).app.settings.lookup k).or _ = some v
    have h' : (boot a).app.settings.lookup k = some v := h
    rw [h']; rfl
  · intro kv hkv
    rw [hsets'] at hkv
    exact ⟨(hnew kv hkv).1, hfirst _ _ (hnew kv hkv).2⟩
  · rw [hsets']; exact hnodup
  · intro k v h hv
    rw [hlook k] at hv
    have h' : (boot a).app.settings.lookup k = none := h
    rw [h', Option.none_or] at hv
    exact hfirst k v hv
  · intro hval k
    have hr := hend hval
    rw [hlook k, hsplit, hr, List.append_nil]
    rfl

set_option maxHeartbeats 1000000 in
/-- C8 at a concrete run: the user has set `addon.one.j`, two addons both
declare `k` and the second also declares `j`. -/
theorem loadAddons_defaults_layered_witness :
    (loadAddons (fun _ => true) [addonFirst, addonSecond] (boot appUserSetting)).value
        = some none ∧
    ∀ k, (loadAddons (fun _ => true) [addonFirst, addonSecond]
        (boot appUserSetting)).proc.app.settings.lookup k =
      (appUserSetting.settings.lookup k).or
        ((declaredDefaults [addonFirst, addonSecond]).lookup k) :=
  ⟨by decide,
   (loadAddons_defaults_layered (fun _ => true) [addonFirst, addonSecond] appUserSetting
    (fun _ _ _ _ => rfl)).2.2.2.2 (by decide)⟩

/-! ## Command resolution -/

/-- With the first segment unknown to the top-level command map (depth 1), the
walk stops there: one lookup, one error appended, which names the last segment
of the path, and `prepareCommand` returns. -/
theorem prepareCommand_unknown_command (a : Application) (s1 name : String)
    (post : List String)
    (htree : a.activeSetTree = "/" :: s1 :: post)
    (hs1 : s1 ≠ "/")
    (hlast : (s1 :: post).getLast? = some name) (hname : name ≠ "/")
    (hmiss : a.commands.lookup s1 = none) :
    (prepareCommand (boot a)).halted = none ∧
    (prepareCommand (boot a)).proc.lookups = [s1] ∧
    (prepareCommand (boot a)).proc.app.errors =
      a.errors ++ [a.ErrCommand ++ ": unknown command (" ++ name ++ ")"] ∧
    (prepareCommand (boot a)).proc.app.currentCmd = a.currentCmd := by
  simp [prepareCommand, prepareCommandLoop, getApp, observeLookup, addAppErr, modifyApp, boot,
    Res.halted, Res.proc, htree, hlast, hs1, hname, hmiss, ↓ite_apply, ↓M.bind_apply,
    ↓M.pure_apply]

/-- Walking down the subcommand maps: when the segments `pre` resolve from
`parent` to `c` and `c` has no subcommand `s`, the loop looks up `pre` and `s`
and then panics on the nil result of the failed lookup, the error accumulator
untouched. -/
theorem prepareCommandLoop_unknown_subcommand (name s : String) (pre post : List String)
    (parent c : Command) (q : Proc)
    (hpre : ∀ x ∈ pre, x ≠ "/") (hs : s ≠ "/")
    (hwalk : descend parent pre = some c) (hmiss : c.subCommands.lookup s = none) :
    ∃ q', prepareCommandLoop name (pre ++ s :: post) (some parent) q
        = .halt (.panic "nil pointer dereference") q' ∧
      q'.app.errors = q.app.errors ∧ q'.lookups = q.lookups ++ pre ++ [s] := by
  induction pre generalizing parent q with
  | nil =>
    have hc : parent = c := by simpa [descend] using hwalk
    subst hc
    refine ⟨{ q with lookups := q.lookups ++ [s] }, ?_, rfl, by simp⟩
    simp [prepareCommandLoop, observeLookup, Command.GetSubCommand, cmdString, panic, hs, hmiss,
      ↓ite_apply, ↓M.bind_apply, ↓M.pure_apply]
  | cons x pre ih =>
    have hx : x ≠ "/" := hpre x (List.mem_cons_self _ _)
    rcases hd : parent.subCommands.lookup x with _ | d
    · simp [descend, hd] at hwalk
    · have hwalk' : descend d pre = some c := by simpa [descend, hd] using hwalk
      obtain ⟨q', hq', herr, hlook⟩ := ih d
        { q with app := { q.app with currentCmd := some d }, lookups := q.lookups ++ [x] }
        (fun y hy => hpre y (List.mem_cons_of_mem _ hy)) hwalk'
      refine ⟨q', ?_, herr, by simpa using hlook⟩
      simpa [prepareCommandLoop, observeLookup, Command.GetSubCommand, modifyApp, hx, hd,
        ↓ite_apply, ↓M.bind_apply, ↓M.pure_apply] using hq'

/-- With the first unresolvable segment at depth 2 or more (`s1` and then
`pre` resolve, `s` does not), `prepareCommand` looks up the segments down to
`s`, none after it, and then panics: no entry is appended to the error
accumulator. -/
theorem prepareCommand_unknown_subcommand (a : Application) (s1 s name : String)
    (pre post : List String) (c1 c : Command)
    (htree : a.activeSetTree = "/" :: s1 :: (pre ++ s :: post))
    (hs1 : s1 ≠ "/") (hpre : ∀ x ∈ pre, x ≠ "/") (hs : s ≠ "/")
    (hlast : (s :: post).getLast? = some name) (hname : name ≠ "/")
    (h1 : a.commands.lookup s1 = some c1)
    (hwalk : descend c1 pre = some c) (hmiss : c.subCommands.lookup s = none) :
    (prepareCommand (boot a)).halted = some (.panic "nil pointer dereference") ∧
    (prepareCommand (boot a)).proc.lookups = s1 :: pre ++ [s] ∧
    (prepareCommand (boot a)).proc.app.errors = a.errors := by
  have hl : (s1 :: (pre ++ s :: post)).getLast? = some name := by
    have h : s1 :: (pre ++ s :: post) = (s1 :: pre) ++ (s :: post) := rfl
    rw [h, List.getLast?_append, hlast]
    rfl
  obtain ⟨q', hq', herr, hlook⟩ := prepareCommandLoop_unknown_subcommand name s pre post c1 c
    { boot a with app := { a with currentCmd := some c1 }, lookups := [s1] } hpre hs hwalk hmiss
  have hrun : prepareCommand (boot a) = .halt (.panic "nil pointer dereference") q' := by
    simpa [prepareCommand, prepareCommandLoop, getApp, observeLookup, modifyApp, boot,
      htree, hl, hs1, hname, h1, ↓ite_apply, ↓M.bind_apply, ↓M.pure_apply] using hq'
  rw [hrun]
  exact ⟨rfl, by simpa [Res.proc] using hlook, herr⟩

/-- C9 at its failing input: the path is `/`, `serve`, `http`, the command
`serve` is registered and has no subcommand `http`.  `prepareCommand` looks up
`serve`, then `http`, and then panics on `cmd.String()`, `cmd` being the nil
result of the failed lookup: no entry reaches the error accumulator. -/
theorem prepareCommand_unknown_subcommand_panics :
    (prepareCommand (boot appUnknownSubcommand)).halted
      = some (.panic "nil pointer dereference") ∧
    (prepareCommand (boot appUnknownSubcommand)).proc.app.errors = [] ∧
    (prepareCommand (boot appUnknownSubcommand)).proc.lookups = ["serve", "http"] := by
  decide

/-- C10 at its failing input: the path is `/`, `foo`, `bar` and no command
`foo` is registered.  The walk stops at `foo`, and the one error appended
names `bar`, the last segment of the path, not the unresolved segment `foo`. -/
theorem prepareCommand_error_names_last_segment :
    (prepareCommand (boot appUnknownCommand)).halted = none ∧
    (prepareCommand (boot appUnknownCommand)).proc.lookups = ["foo"] ∧
    (prepareCommand (boot appUnknownCommand)).proc.app.errors
      = ["command error: unknown command (bar)"] := by
  decide

/-- C11 at its failing input: `serve` and its subcommand `http` resolve, and
`http` has no subcommand `tls`.  The subcommand lookup reports not found and
yields no command; `prepareCommand` then calls `String()` on that nil command
and panics instead of returning, and nothing is recorded in the error
accumulator. -/
theorem prepareCommand_panics_on_unresolved_subcommand :
    (prepareCommand (boot appUnknownAtDepthThree)).halted
      = some (.panic "nil pointer dereference") ∧
    (prepareCommand (boot appUnknownAtDepthThree)).value = none ∧
    (prepareCommand (boot appUnknownAtDepthThree)).proc.lookups = ["serve", "http", "tls"] ∧
    (prepareCommand (boot appUnknownAtDepthThree)).proc.app.errors = [] := by
  decide

/-- Walking down the subcommand maps along segments that all resolve: the loop
returns, having looked up each segment once, with the deepest node as current
command and nothing else changed. -/
theorem prepareCommandLoop_resolves (name : String) (segs : List String)
    (parent c : Command) (q : Proc)
    (hsegs : ∀ x ∈ segs, x ≠ "/") (hwalk : descend parent segs = some c) :
    prepareCommandLoop name segs (some parent) q = .ok ()
      { q with
        app := { q.app with currentCmd := if segs = [] then q.app.currentCmd else some c }
        lookups := q.lookups ++ segs } := by
  induction segs generalizing parent q with
  | nil => simp [prepareCommandLoop, ↓M.pure_apply]
  | cons x rest ih =>
    have hx : x ≠ "/" := hsegs x (List.mem_cons_self _ _)
    rcases hd : parent.subCommands.lookup x with _ | d
    · simp [descend, hd] at hwalk
    · have hwalk' : descend d rest = some c := by simpa [descend, hd] using hwalk
      have hrest := ih d
        { q with app := { q.app with currentCmd := some d }, lookups := q.lookups ++ [x] }
        (fun y hy => hsegs y (List.mem_cons_of_mem _ hy)) hwalk'
      have hc : rest = [] → d = c := by
        intro h
        subst h
        simpa [descend] using hwalk'
      simp only [prepareCommandLoop, observeLookup, Command.GetSubCommand, modifyApp, hx, hd,
        ↓ite_apply, ↓M.bind_apply, ↓M.pure_apply, beq_iff_eq, if_false, Bool.not_true,
        Bool.false_eq_true]
      rw [hrest]
      by_cases hnil : rest = []
      · simp [hnil, hc hnil]
      · simp [hnil]

/-- With every segment of the path resolving, `prepareCommand` returns with
the deepest node as current command; only the current command and the lookup
trace change. -/
theorem prepareCommand_resolves_eq (p : Proc) (s1 : String) (segs : List String)
    (c1 c : Command)
    (htree : p.app.activeSetTree = "/" :: s1 :: segs)
    (hs1 : s1 ≠ "/") (hsegs : ∀ x ∈ segs, x ≠ "/")
    (h1 : p.app.commands.lookup s1 = some c1) (hwalk : descend c1 segs = some c) :
    prepareCommand p = .ok ()
      { p with
        app := { p.app with currentCmd := some c }
        lookups := p.lookups ++ s1 :: segs } := by
  have hmem : ∀ x ∈ s1 :: segs, x ≠ "/" := by
    intro x hx
    rcases List.mem_cons.1 hx with rfl | hx
    · exact hs1
    · exact hsegs x hx
  obtain ⟨name, hname⟩ : ∃ name, (s1 :: segs).getLast? = some name :=
    ⟨(s1 :: segs).getLast (by simp), List.getLast?_eq_getLast _ _⟩
  have hne : name ≠ "/" := hmem name (List.mem_of_getLast?_eq_some hname)
  have hloop := prepareCommandLoop_resolves name segs c1 c
    { p with app := { p.app with currentCmd := some c1 }, lookups := p.lookups ++ [s1] }
    hsegs hwalk
  have hc : segs = [] → c1 = c := by
    intro h
    subst h
    simpa [descend] using hwalk
  have hrun : prepareCommand p = prepareCommandLoop name segs (some c1)
      { p with app := { p.app with currentCmd := some c1 }, lookups := p.lookups ++ [s1] } := by
    simp [prepareCommand, prepareCommandLoop, getApp, observeLookup, modifyApp, htree,
      hname, hs1, hne, h1, ↓ite_apply, ↓M.bind_apply, ↓M.pure_apply]
  rw [hrun, hloop]
  by_cases hnil : segs = []
  · simp [hnil, hc hnil]
  · simp [hnil]

/-- C12: for every activated path `/`, s1, ..., sn (n ≥ 1, no segment being the
root marker) in which s1 is a key of the top-level command map and every
following segment is a subcommand of the command resolved before it,
`prepareCommand` returns, appends no error, has looked up exactly the segments
s1, ..., sn in order, and sets the current command to the deepest node. -/
theorem prepareCommand_resolves (a : Application) (s1 : String) (segs : List String)
    (c1 c : Command)
    (htree : a.activeSetTree = "/" :: s1 :: segs)
    (hs1 : s1 ≠ "/") (hsegs : ∀ x ∈ segs, x ≠ "/")
    (h1 : a.commands.lookup s1 = some c1) (hwalk : descend c1 segs = some c) :
    (prepareCommand (boot a)).halted = none ∧
    (prepareCommand (boot a)).proc.app.errors = a.errors ∧
    (prepareCommand (boot a)).proc.app.currentCmd = some c ∧
    (prepareCommand (boot a)).proc.lookups = s1 :: segs := by
  rw [prepareCommand_resolves_eq (boot a) s1 segs c1 c htree hs1 hsegs h1 hwalk]
  exact ⟨rfl, rfl, rfl, rfl⟩

/-- C12 at a concrete run: the path `serve http` resolves to `http`. -/
theorem prepareCommand_resolves_witness :
    (prepareCommand (boot appResolves)).halted = none ∧
    (prepareCommand (boot appResolves)).proc.app.errors = appResolves.errors ∧
    (prepareCommand (boot appResolves)).proc.app.currentCmd = some cmdHttp ∧
    (prepareCommand (boot appResolves)).proc.lookups = ["serve", "http"] :=
  prepareCommand_resolves appResolves "serve" ["http"] cmdServeHttp cmdHttp rfl (by decide)
    (by decide) rfl rfl

/-- With the root marker as the whole path, `prepareCommand` looks up the
application's slug in the top-level command map and returns; the command found,
if any, becomes the current command, and nothing else changes. -/
theorem prepareCommand_root_marker_eq (p : Proc) (htree : p.app.activeSetTree = ["/"]) :
    prepareCommand p = .ok ()
      { p with
        app := { p.app with
          currentCmd := match p.app.commands.lookup p.app.Slug with
            | none => p.app.currentCmd
            | some c => some c }
        lookups := p.lookups ++ [p.app.Slug] } := by
  have hlast : p.app.activeSetTree.getLast? = some "/" := by rw [htree]; rfl
  rcases h : p.app.commands.lookup p.app.Slug with _ | c <;>
  simp [prepareCommand, getApp, observeLookup, modifyApp, hlast, h, ↓ite_apply, ↓M.bind_apply,
    ↓M.pure_apply]

/-- C13: for the activated path `/`: when the top-level command map has no
entry keyed by the application's slug, `prepareCommand` returns and leaves the
application as it was, so the current command stays nil and the error
accumulator is unchanged; when the map has such an entry, `prepareCommand`
returns and that command is the current command, nothing else changed. -/
theorem prepareCommand_root_marker (a : Application) (htree : a.activeSetTree = ["/"]) :
    (a.commands.lookup a.Slug = none →
      (prepareCommand (boot a)).halted = none ∧ (prepareCommand (boot a)).proc.app = a) ∧
    (∀ c, a.commands.lookup a.Slug = some c →
      (prepareCommand (boot a)).halted = none ∧
      (prepareCommand (boot a)).proc.app = { a with currentCmd := some c }) := by
  rw [prepareCommand_root_marker_eq (boot a) htree]
  refine ⟨fun h => ?_, fun c h => ?_⟩
  · simp [Res.halted, Res.proc, h, boot]
  · simp [Res.halted, Res.proc, h, boot]

/-- C13 at two concrete runs: no command registered, and a command registered
under the slug. -/
theorem prepareCommand_root_marker_witness :
    ((prepareCommand (boot app0)).halted = none ∧ (prepareCommand (boot app0)).proc.app = app0) ∧
    ((prepareCommand (boot appRootCommand)).halted = none ∧
      (prepareCommand (boot appRootCommand)).proc.app =
        { appRootCommand with currentCmd := some rootOk }) :=
  ⟨(prepareCommand_root_marker app0 rfl).1 rfl,
   (prepareCommand_root_marker appRootCommand rfl).2 rootOk rfl⟩

/-! ## Finalization -/

/-- The end of `executeAfterAlwaysFn` when the root's AfterAlways is not fatal:
the process is ended with the working code and no payload; keep-alive is
cleared when it was active with working code 0; the accumulator is untouched
and a failing AfterAlways of the current command is logged. -/
theorem executeAfterAlwaysFn_nonfatal (code : Nat) (p : Proc) (cur : Command)
    (hcur : p.app.currentCmd = some cur)
    (hroot : ∀ r, p.app.rootCmd = some r → r.ptr ≠ cur.ptr → r.ExecuteAfterAlwaysFn = none) :
    (executeAfterAlwaysFn code p).halted = some (.exit (workingCode cur code) none) ∧
    (executeAfterAlwaysFn code p).proc.app.keepAlive =
      (if p.app.keepAlive && workingCode cur code == 0 then false else p.app.keepAlive) ∧
    (executeAfterAlwaysFn code p).proc.app.errors = p.app.errors ∧
    (∀ e, cur.ExecuteAfterAlwaysFn = some e →
      (executeAfterAlwaysFn code p).proc.logged = p.logged ++ [.Error e]) := by
  have hr : p.app.rootCmd = none ∨ (∃ r, p.app.rootCmd = some r ∧ cur.ptr = r.ptr) ∨
      (∃ r, p.app.rootCmd = some r ∧ cur.ptr ≠ r.ptr ∧ r.ExecuteAfterAlwaysFn = none) := by
    rcases h : p.app.rootCmd with _ | r
    · exact Or.inl rfl
    · by_cases hp : cur.ptr = r.ptr
      · exact Or.inr (Or.inl ⟨r, rfl, hp⟩)
      · exact Or.inr (Or.inr ⟨r, rfl, hp, hroot r h (fun h' => hp h'.symm)⟩)
  rcases hr with hr | ⟨r, hr, hp⟩ | ⟨r, hr, hp, hraa⟩ <;>
  rcases haa : cur.ExecuteAfterAlwaysFn with _ | e <;>
  cases hk : p.app.keepAlive <;>
  by_cases hc : code = 0 <;>
  simp [executeAfterAlwaysFn, callHook, getApp, modifyApp, log, Exit, observeCode, sameCmd,
    workingCode, Res.halted, Res.proc, Command.hook, ↓ite_apply, ↓M.bind_apply,
    ↓M.pure_apply, *]

/-- The exit code `executeAfterAlwaysFn` ends the process with, the current
command not being the root command. -/
theorem executeAfterAlwaysFn_exitCode (code : Nat) (p : Proc) (cur root : Command)
    (hcur : p.app.currentCmd = some cur) (hroot : p.app.rootCmd = some root)
    (hne : cur.ptr ≠ root.ptr) :
    (executeAfterAlwaysFn code p).exitCode =
      some (if root.ExecuteAfterAlwaysFn = none then workingCode cur code else 1) := by
  rcases hraa : root.ExecuteAfterAlwaysFn with _ | e2 <;>
  rcases haa : cur.ExecuteAfterAlwaysFn with _ | e <;>
  cases hk : p.app.keepAlive <;>
  by_cases hc : code = 0 <;>
  simp [executeAfterAlwaysFn, callHook, getApp, modifyApp, log, Exit, observeCode, sameCmd,
    workingCode, Res.exitCode, Command.hook, ↓ite_apply, ↓M.bind_apply, ↓M.pure_apply, *]

/-- C16, as stated, fails: with keep-alive active, every hook succeeding and
working code 0, `executeAfterAlwaysFn` clears the directive and then ends the
process with `Exit(0, nil)`; the process does not stay running. -/
theorem executeAfterAlwaysFn_keepAlive_exits :
    (executeAfterAlwaysFn 0 (boot appKeepAlive)).halted = some (.exit 0 none) ∧
    (executeAfterAlwaysFn 0 (boot appKeepAlive)).proc.app.keepAlive = false ∧
    (executeAfterAlwaysFn 0 (boot appKeepAlive)).proc.logged =
      [.SystemDebug "UI exited with code(0), but service is in keep-alive mode, continue exec",
       .NotImplemented "executeAfterAlwaysFn services-keep-alive not implemented"] := by
  decide

/-- C16, amended: for every run that reaches the end of `executeAfterAlwaysFn`
without a fatal root AfterAlways failure, the process is finalized with the
working code and no error payload; the keep-alive directive is cleared when it
is active and the working code is 0, and left unchanged in every other case. -/
theorem executeAfterAlwaysFn_finalizes (code : Nat) (p : Proc) (cur : Command)
    (hcur : p.app.currentCmd = some cur)
    (hroot : ∀ r, p.app.rootCmd = some r → r.ptr ≠ cur.ptr → r.ExecuteAfterAlwaysFn = none) :
    (executeAfterAlwaysFn code p).halted = some (.exit (workingCode cur code) none) ∧
    (p.app.keepAlive = true ∧ workingCode cur code = 0 →
      (executeAfterAlwaysFn code p).proc.app.keepAlive = false) ∧
    (¬ (p.app.keepAlive = true ∧ workingCode cur code = 0) →
      (executeAfterAlwaysFn code p).proc.app.keepAlive = p.app.keepAlive) := by
  obtain ⟨h1, h2, _⟩ := executeAfterAlwaysFn_nonfatal code p cur hcur hroot
  refine ⟨h1, fun h => ?_, fun h => ?_⟩
  · rw [h2]; simp [h.1, h.2]
  · rw [h2]
    by_cases hk : p.app.keepAlive = true
    · have hc : workingCode cur code ≠ 0 := fun hc => h ⟨hk, hc⟩
      simp [hc]
    · simp [hk]

/-- C16 amended, at the run of the counterexample: exit with code 0 and no
payload, the directive cleared. -/
theorem executeAfterAlwaysFn_finalizes_witness :
    (executeAfterAlwaysFn 0 (boot appKeepAlive)).halted
      = some (.exit (workingCode cmdOk 0) none) ∧
    (executeAfterAlwaysFn 0 (boot appKeepAlive)).proc.app.keepAlive = false :=
  ⟨(executeAfterAlwaysFn_finalizes 0 (boot appKeepAlive) cmdOk rfl
      (by intro r hr _; cases hr; rfl)).1,
   (executeAfterAlwaysFn_finalizes 0 (boot appKeepAlive) cmdOk rfl
      (by intro r hr _; cases hr; rfl)).2.1 ⟨rfl, rfl⟩⟩

/-- C20: in `executeAfterAlwaysFn`, whatever the working code at entry, when
the current command's AfterAlways fails with `e` and the root's AfterAlways
does not fail, the process exits with code 1 and no payload; `e` is written to
the log and the error accumulator is as it was at entry, and the keep-alive
directive is left as it was. -/
theorem executeAfterAlwaysFn_current_fails (code : Nat) (p : Proc) (cur : Command) (e : Error)
    (hcur : p.app.currentCmd = some cur)
    (haa : cur.ExecuteAfterAlwaysFn = some e)
    (hroot : ∀ r, p.app.rootCmd = some r → r.ptr ≠ cur.ptr → r.ExecuteAfterAlwaysFn = none) :
    (executeAfterAlwaysFn code p).halted = some (.exit 1 none) ∧
    (executeAfterAlwaysFn code p).proc.logged = p.logged ++ [.Error e] ∧
    (executeAfterAlwaysFn code p).proc.app.errors = p.app.errors ∧
    (executeAfterAlwaysFn code p).proc.app.keepAlive = p.app.keepAlive := by
  obtain ⟨h1, h2, h3, h4⟩ := executeAfterAlwaysFn_nonfatal code p cur hcur hroot
  have hw : workingCode cur code = 1 := by simp [workingCode, haa]
  rw [hw] at h1 h2
  exact ⟨h1, h4 e haa, h3, by rw [h2]; simp⟩

/-- C20 at a concrete state: working code 2 at entry. -/
theorem executeAfterAlwaysFn_current_fails_witness :
    (executeAfterAlwaysFn 2 (boot appDoAndAfterAlwaysFail)).halted = some (.exit 1 none) ∧
    (executeAfterAlwaysFn 2 (boot appDoAndAfterAlwaysFail)).proc.logged
      = [] ++ [.Error "after always failed"] :=
  ⟨(executeAfterAlwaysFn_current_fails 2 (boot appDoAndAfterAlwaysFail)
      cmdDoAndAfterAlwaysFail "after always failed" rfl rfl
      (by intro r hr _; cases hr; rfl)).1,
   (executeAfterAlwaysFn_current_fails 2 (boot appDoAndAfterAlwaysFail)
      cmdDoAndAfterAlwaysFail "after always failed" rfl rfl
      (by intro r hr _; cases hr; rfl)).2.1⟩

/-- The case C20 singles out, as a whole run: Do fails, the current command's
AfterFailure succeeds (working code 2) and its AfterAlways fails.  The process
exits with 1, the working code went 0, 2, 1, the accumulator holds the Do
error only and the AfterAlways error is in the log. -/
theorem execute_do_and_afterAlways_fail :
    (execute (boot appDoAndAfterAlwaysFail)).halted = some (.exit 1 none) ∧
    (execute (boot appDoAndAfterAlwaysFail)).proc.codes = [0, 2, 1] ∧
    (execute (boot appDoAndAfterAlwaysFail)).proc.app.errors = ["do failed"] ∧
    LogEntry.Error "after always failed" ∈ (execute (boot appDoAndAfterAlwaysFail)).proc.logged := by
  decide

/-- The exit code of a run with a root command other than the current command
and the services initialised, as a function of the hook outcomes. -/
theorem execute_exitCode (a : Application) (cur root : Command)
    (hcur : a.currentCmd = some cur) (hroot : a.rootCmd = some root)
    (hne : cur.ptr ≠ root.ptr)
    (hinit : 0 < a.services ∨ a.Initialize = none) :
    (execute (boot a)).exitCode = some (finalCode cur root) := by
  have hs : 0 < a.services ∨ (¬ 0 < a.services ∧ a.Initialize = none) := by
    by_cases h : 0 < a.services
    · exact Or.inl h
    · exact Or.inr ⟨h, hinit.resolve_left h⟩
  rcases hs with hs | ⟨hs, hi⟩ <;>
  rcases hrb : root.ExecuteBeforeFn with _ | e1 <;>
  rcases hcb : cur.ExecuteBeforeFn with _ | e2
  all_goals try (simp [execute, executeBeforeFn, callHook, getApp, log, Exit, boot, sameCmd,
      finalCode, Res.exitCode, Command.hook, ↓ite_apply, ↓M.bind_apply, ↓M.pure_apply, *]; done)
  all_goals rcases hdo : cur.ExecuteDoFn with _ | e3
  all_goals
    rcases hafter : cur.hook (match cur.ExecuteDoFn with
      | none => Hook.AfterSuccess
      | some _ => Hook.AfterFailure) with _ | e4
  all_goals
    rcases hrafter : root.hook (match cur.ExecuteDoFn with
      | none => Hook.AfterSuccess
      | some _ => Hook.AfterFailure) with _ | e5
  all_goals simp only [hdo, Command.hook] at hafter hrafter
  all_goals
    simp [execute, executeBeforeFn, callHook, getApp, modifyApp, log, Exit, observeCode,
      addAppErr, boot, sameCmd, Command.hook, ↓ite_apply, ↓M.bind_apply, ↓M.pure_apply, *]
  all_goals
    rw [executeAfterAlwaysFn_exitCode _ _ cur root (by simp [hcur]) (by simp [hroot]) hne]
  all_goals simp [finalCode, doCode, *]

theorem Command.withHooks_ptr (c : Command) (h : Hooks) : (c.withHooks h).ptr = c.ptr := by
  cases c; rfl

theorem Command.withHooks_hooks (c : Command) (h : Hooks) : (c.withHooks h).hooks = h := by
  cases c; rfl

/-- C19: for every combination of hook outcomes, with a root command present,
current ≠ root and the services initialised: `execute` ends the process with an
exit code among 0, 1, 2, which is 0 exactly when root.Before, current.Before,
current.Do, current.AfterSuccess, current.AfterAlways and root.AfterAlways all
succeed; replacing the outcomes of root.AfterSuccess and root.AfterFailure by
any others leaves the code the same; and when only root.AfterSuccess fails the
process exits 0 with that error in the accumulator. -/
theorem execute_exit_code_zero_iff (a : Application) (cur root : Command)
    (hcur : a.currentCmd = some cur) (hroot : a.rootCmd = some root)
    (hne : cur.ptr ≠ root.ptr)
    (hinit : 0 < a.services ∨ a.Initialize = none) :
    (∃ c, (execute (boot a)).exitCode = some c ∧ c ≤ 2 ∧
      (c = 0 ↔ root.ExecuteBeforeFn = none ∧ cur.ExecuteBeforeFn = none ∧
        cur.ExecuteDoFn = none ∧ cur.ExecuteAfterSuccessFn = none ∧
        cur.ExecuteAfterAlwaysFn = none ∧ root.ExecuteAfterAlwaysFn = none)) ∧
    (∀ h : Hooks, h.Before = root.hooks.Before → h.AfterAlways = root.hooks.AfterAlways →
      (execute (boot { a with rootCmd := some (root.withHooks h) })).exitCode
        = (execute (boot a)).exitCode) ∧
    (∀ e, root.ExecuteAfterSuccessFn = some e →
      root.ExecuteBeforeFn = none → cur.ExecuteBeforeFn = none → cur.ExecuteDoFn = none →
      cur.ExecuteAfterSuccessFn = none → cur.ExecuteAfterAlwaysFn = none →
      root.ExecuteAfterAlwaysFn = none →
      (execute (boot a)).exitCode = some 0 ∧
      (execute (boot a)).proc.app.errors = a.errors ++ [e]) := by
  have hcode := execute_exitCode a cur root hcur hroot hne hinit
  refine ⟨⟨finalCode cur root, hcode, ?_, ?_⟩, ?_, ?_⟩
  · unfold finalCode workingCode doCode
    repeat' split
    all_goals omega
  · rcases hrb : root.ExecuteBeforeFn with _ | e1 <;>
    rcases hcb : cur.ExecuteBeforeFn with _ | e2 <;>
    rcases hdo : cur.ExecuteDoFn with _ | e3 <;>
    rcases has : cur.ExecuteAfterSuccessFn with _ | e4 <;>
    rcases haf : cur.ExecuteAfterFailureFn with _ | e5 <;>
    rcases haa : cur.ExecuteAfterAlwaysFn with _ | e6 <;>
    rcases hraa : root.ExecuteAfterAlwaysFn with _ | e7 <;>
    simp [finalCode, workingCode, doCode, *]
  · intro h hb haa
    have hcode' := execute_exitCode { a with rootCmd := some (root.withHooks h) } cur
      (root.withHooks h) hcur rfl (by rw [Command.withHooks_ptr]; exact hne) hinit
    rw [hcode', hcode]
    simp [finalCode, Command.ExecuteBeforeFn, Command.ExecuteAfterAlwaysFn,
      Command.withHooks_hooks, hb, haa]
  · intro e hras hrb hcb hdo has haa hraa
    have hs : 0 < a.services ∨ (¬ 0 < a.services ∧ a.Initialize = none) := by
      by_cases h : 0 < a.services
      · exact Or.inl h
      · exact Or.inr ⟨h, hinit.resolve_left h⟩
    refine ⟨by rw [hcode]; simp [finalCode, workingCode, doCode, *], ?_⟩
    rcases hs with hs | ⟨hs, hi⟩ <;> cases hk : a.keepAlive <;>
    simp [execute, executeBeforeFn, executeAfterAlwaysFn, callHook, addAppErr, getApp,
      modifyApp, log, Exit, observeCode, boot, sameCmd, Res.proc, Command.hook,
      ↓ite_apply, ↓M.bind_apply, ↓M.pure_apply, *]

/-- C19 at a concrete run: only the root's AfterSuccess fails; the process
exits 0 and the error is in the accumulator. -/
theorem execute_exit_code_zero_iff_witness :
    (execute (boot appRootAfterSuccessFails)).exitCode = some 0 ∧
    (execute (boot appRootAfterSuccessFails)).proc.app.errors =
      appRootAfterSuccessFails.errors ++ ["root after success failed"] :=
  (execute_exit_code_zero_iff appRootAfterSuccessFails cmdOk rootAfterSuccessFails rfl rfl
    (by decide) (Or.inr rfl)).2.2 "root after success failed" rfl rfl rfl rfl rfl rfl rfl

/-! ## Startup -/

/-- The verification loop returns; it appends the `Verify` error of every
failing command to the accumulator and adds the flag set of every passing
command, and changes nothing else. -/
theorem verifyCommands_eq (cmds : List (String × Command)) (p : Proc) :
    verifyCommands cmds p = .ok ()
      { p with
        app := { p.app with
          errors := p.app.errors ++ cmds.filterMap fun kv => kv.2.Verify
          flagSets := p.app.flagSets ++
            (cmds.filter fun kv => kv.2.Verify.isNone).map fun kv => kv.2.String } } := by
  induction cmds generalizing p with
  | nil => simp [verifyCommands, ↓M.pure_apply]
  | cons kv rest ih =>
    obtain ⟨k, cmd⟩ := kv
    rcases hv : cmd.Verify with _ | err
    · simp [verifyCommands, modifyApp, ih, hv, ↓M.bind_apply, ↓M.pure_apply]
    · simp [verifyCommands, addAppErr, modifyApp, ih, hv, ↓M.bind_apply, ↓M.pure_apply]

theorem Effect.apply_halted (e : Effect) (p : Proc) : (e.apply p).halted = e.halt := by
  unfold Effect.apply
  cases e.halt <;> rfl

/-- The loop of `prepareCommand` acts on a process through the command map and
the `ErrCommand` sentinel only: its effect is the same from every state that
agrees on these. -/
theorem prepareCommandLoop_effect (cmds : List (String × Command)) (ec name : String)
    (tree : List String) (cmd : Option Command) :
    ∃ e : Effect, e.errs.length ≤ 1 ∧ ∀ p : Proc, p.app.commands = cmds →
      p.app.ErrCommand = ec → prepareCommandLoop name tree cmd p = e.apply p := by
  induction tree generalizing cmd with
  | nil =>
    exact ⟨⟨none, [], none, []⟩, by simp, fun p _ _ => by
      simp [prepareCommandLoop, Effect.apply, ↓M.pure_apply]⟩
  | cons x rest ih =>
    by_cases hx : x = "/"
    · obtain ⟨e, he, h⟩ := ih cmd
      exact ⟨e, he, fun p hc hec => by
        rw [← h p hc hec]
        simp [prepareCommandLoop, hx, ↓ite_apply, ↓M.bind_apply]⟩
    · rcases cmd with _ | parent
      · rcases hl : cmds.lookup x with _ | c
        · refine ⟨⟨none, [ec ++ ": unknown command (" ++ name ++ ")"], none, [x]⟩, by simp,
            fun p hc hec => ?_⟩
          simp [prepareCommandLoop, observeLookup, getApp, addAppErr, modifyApp, Effect.apply,
            hx, hc, hec, hl, ↓ite_apply, ↓M.bind_apply, ↓M.pure_apply]
        · obtain ⟨e, he, h⟩ := ih (some c)
          refine ⟨⟨e.halt, e.errs, some (e.cur.getD c), x :: e.lookups⟩, he,
            fun p hc hec => ?_⟩
          have hstep := h
            { p with app := { p.app with currentCmd := some c }, lookups := p.lookups ++ [x] }
            hc hec
          have hrun : prepareCommandLoop name (x :: rest) none p = prepareCommandLoop name rest
              (some c)
              { p with app := { p.app with currentCmd := some c },
                       lookups := p.lookups ++ [x] } := by
            simp [prepareCommandLoop, observeLookup, getApp, modifyApp, hx, hc, hl,
              ↓ite_apply, ↓M.bind_apply, ↓M.pure_apply]
          rw [hrun, hstep]
          unfold Effect.apply
          cases e.halt <;> cases e.cur <;> simp
      · rcases hl : parent.subCommands.lookup x with _ | d
        · refine ⟨⟨some (.panic "nil pointer dereference"), [], none, [x]⟩, by simp,
            fun p hc hec => ?_⟩
          simp [prepareCommandLoop, observeLookup, Command.GetSubCommand, cmdString, panic,
            Effect.apply, hx, hl, ↓ite_apply, ↓M.bind_apply, ↓M.pure_apply]
        · obtain ⟨e, he, h⟩ := ih (some d)
          refine ⟨⟨e.halt, e.errs, some (e.cur.getD d), x :: e.lookups⟩, he,
            fun p hc hec => ?_⟩
          have hstep := h
            { p with app := { p.app with currentCmd := some d }, lookups := p.lookups ++ [x] }
            hc hec
          have hrun : prepareCommandLoop name (x :: rest) (some parent) p =
              prepareCommandLoop name rest (some d)
              { p with app := { p.app with currentCmd := some d },
                       lookups := p.lookups ++ [x] } := by
            simp [prepareCommandLoop, observeLookup, Command.GetSubCommand, modifyApp, hx, hl,
              ↓ite_apply, ↓M.bind_apply, ↓M.pure_apply]
          rw [hrun, hstep]
          unfold Effect.apply
          cases e.halt <;> cases e.cur <;> simp

/-- `prepareCommand` acts on a process through the command map, the active set
tree, the slug and the `ErrCommand` sentinel only. -/
theorem prepareCommand_effect (a : Application) :
    ∃ e : Effect, e.errs.length ≤ 1 ∧ ∀ p : Proc, p.app.commands = a.commands →
      p.app.ErrCommand = a.ErrCommand → p.app.activeSetTree = a.activeSetTree →
      p.app.Slug = a.Slug → prepareCommand p = e.apply p := by
  rcases hlast : a.activeSetTree.getLast? with _ | name
  · refine ⟨⟨some (.panic "index out of range [-1]"), [], none, []⟩, by simp,
      fun p _ _ ht _ => ?_⟩
    have hlast' : p.app.activeSetTree.getLast? = none := by rw [ht]; exact hlast
    simp [prepareCommand, getApp, panic, Effect.apply, hlast', ↓M.bind_apply]
  · by_cases hname : name = "/"
    · refine ⟨⟨none, [], a.commands.lookup a.Slug, [a.Slug]⟩, by simp,
        fun p hc _ ht hs => ?_⟩
      have hlast' : p.app.activeSetTree.getLast? = some name := by rw [ht]; exact hlast
      rw [← hc, ← hs]
      rcases hl : p.app.commands.lookup p.app.Slug with _ | c <;>
      simp [prepareCommand, getApp, observeLookup, modifyApp, Effect.apply, hlast', hname,
        hl, ↓ite_apply, ↓M.bind_apply, ↓M.pure_apply]
    · obtain ⟨e, he, h⟩ := prepareCommandLoop_effect a.commands a.ErrCommand name
        a.activeSetTree none
      refine ⟨e, he, fun p hc hec ht _ => ?_⟩
      have hlast' : p.app.activeSetTree.getLast? = some name := by rw [ht]; exact hlast
      rw [← h p hc hec, ← ht]
      simp [prepareCommand, getApp, hlast', hname, ↓ite_apply, ↓M.bind_apply]

theorem untouched_refl (p : Proc) : Untouched p p := ⟨rfl, rfl, rfl⟩

theorem untouched_trans {p q r : Proc} (h : Untouched p q) (h' : Untouched q r) :
    Untouched p r :=
  ⟨h'.1.trans h.1, h'.2.1.trans h.2.1, h'.2.2.trans h.2.2⟩

theorem loadSettings_untouched (V : String → Bool) (slug : String) (ds : List Setting)
    (p : Proc) : Untouched p (loadSettings V slug ds p).proc := by
  induction ds generalizing p with
  | nil => exact untouched_refl p
  | cons d rest ih =>
    cases hv : V (settingKey slug d.Key)
    · simp [loadSettings, getApp, Exit, Res.proc, hv, untouched_refl, ↓ite_apply, ↓M.bind_apply,
        ↓M.pure_apply]
    · rcases hhas : p.app.settings.lookup (settingKey slug d.Key) with _ | v
      · have h := ih
          { p with
            app := { p.app with
              settings := Settings.Set p.app.settings (settingKey slug d.Key) d.Default }
            logged := p.logged ++
              [.SystemDebug ("setting default for " ++ settingKey slug d.Key)]
            sets := p.sets ++ [(settingKey slug d.Key, d.Default)] }
        have hrun : loadSettings V slug (d :: rest) p = loadSettings V slug rest
            { p with
              app := { p.app with
                settings := Settings.Set p.app.settings (settingKey slug d.Key) d.Default }
              logged := p.logged ++
                [.SystemDebug ("setting default for " ++ settingKey slug d.Key)]
              sets := p.sets ++ [(settingKey slug d.Key, d.Default)] } := by
          simp [loadSettings, getApp, log, modifyApp, observeSet, Settings.Has, hv, hhas,
            ↓ite_apply, ↓M.bind_apply, ↓M.pure_apply]
        rw [hrun]
        exact untouched_trans ⟨rfl, rfl, rfl⟩ h
      · have hrun : loadSettings V slug (d :: rest) p = loadSettings V slug rest p := by
          simp [loadSettings, getApp, Settings.Has, hv, hhas, ↓ite_apply, ↓M.bind_apply,
            ↓M.pure_apply]
        rw [hrun]
        exact ih p

theorem addCommands_untouched (cmds : List Command) (p : Proc) :
    ∃ q, addCommands cmds p = .ok () q ∧ Untouched p q := by
  induction cmds generalizing p with
  | nil => exact ⟨p, rfl, untouched_refl p⟩
  | cons c rest ih =>
    obtain ⟨q, hq, h⟩ := ih
      { p with app := { p.app with
          commands := (c.String, c) :: p.app.commands.filter fun kv => kv.1 != c.String } }
    exact ⟨q, by simpa [addCommands, AddCommand, modifyApp, ↓M.bind_apply] using hq,
      untouched_trans ⟨rfl, rfl, rfl⟩ h⟩

/-- The addon loop calls no hook, resolves no command and does not start the
session, however it ends. -/
theorem loadAddons_untouched (V : String → Bool) (addons : List Addon) (p : Proc) :
    Untouched p (loadAddons V addons p).proc := by
  induction addons generalizing p with
  | nil => exact untouched_refl p
  | cons ad rest ih =>
    have hset := loadSettings_untouched V ad.Slug ad.DefaultSettings
      { p with logged := p.logged ++
          [.SystemDebug ("loading addon " ++ ad.Slug ++ " " ++ ad.Version)] }
    have hset' : Untouched p (loadSettings V ad.Slug ad.DefaultSettings
        { p with logged := p.logged ++
          [.SystemDebug ("loading addon " ++ ad.Slug ++ " " ++ ad.Version)] }).proc :=
      untouched_trans ⟨rfl, rfl, rfl⟩ hset
    rcases hq : loadSettings V ad.Slug ad.DefaultSettings
        { p with logged := p.logged ++
          [.SystemDebug ("loading addon " ++ ad.Slug ++ " " ++ ad.Version)] } with ⟨_, q⟩ | ⟨h, q⟩
    · rw [hq] at hset'
      have hpq : Untouched p q := hset'
      cases hconf : ad.Configured q.app.settings
      · have hrun : loadAddons V (ad :: rest) p = loadAddons V rest
            { q with logged := q.logged ++
              [.SystemDebug ("addon " ++ ad.Slug ++ " is not configured")] } := by
          simp [loadAddons, log, getApp, hq, hconf, ↓ite_apply, ↓M.bind_apply, ↓M.pure_apply]
        rw [hrun]
        exact untouched_trans hpq (untouched_trans ⟨rfl, rfl, rfl⟩ (ih _))
      · rcases hcmds : ad.Commands with err | cmds
        · have hrun : loadAddons V (ad :: rest) p = .ok (some err) q := by
            simp [loadAddons, log, getApp, hq, hconf, hcmds, ↓ite_apply, ↓M.bind_apply,
              ↓M.pure_apply]
          rw [hrun]; exact hpq
        · obtain ⟨q2, hq2, h2⟩ := addCommands_untouched cmds q
          rcases hreg : ad.Register with _ | err
          · have hrun : loadAddons V (ad :: rest) p = loadAddons V rest
                { q2 with app := { q2.app with
                    services := q2.app.services + ad.Services } } := by
              simp [loadAddons, log, getApp, modifyApp, hq, hconf, hcmds, hq2, hreg,
                ↓ite_apply, ↓M.bind_apply, ↓M.pure_apply]
            rw [hrun]
            exact untouched_trans (untouched_trans hpq h2) (untouched_trans ⟨rfl, rfl, rfl⟩ (ih _))
          · have hrun : loadAddons V (ad :: rest) p = .halt (.exit 1 (some err)) q2 := by
              simp [loadAddons, log, getApp, Exit, hq, hconf, hcmds, hq2, hreg, ↓ite_apply,
                ↓M.bind_apply, ↓M.pure_apply]
            rw [hrun]; exact untouched_trans hpq h2
    · rw [hq] at hset'
      have hrun : loadAddons V (ad :: rest) p = .halt h q := by
        simp [loadAddons, log, hq, ↓M.bind_apply]
      rw [hrun]; exact hset'

/-- When the application is not started yet, the completion flag is absent and
the addon loop runs to its end in state `q`, `start` goes on with the
verification of the commands from `q`. -/
theorem start_eq_startCommands (w : World) (addons : List Addon) (a : Application) (q : Proc)
    (hstarted : a.started = false) (hcompl : w.showBashCompletion = false)
    (hloop : loadAddons w.ValidSettingKey addons (boot { a with started := true })
      = .ok none q) :
    start w addons (boot a) = startCommands w q := by
  simp only [boot] at hloop
  simp [start, getApp, modifyApp, boot, hstarted, hcompl, hloop, ↓ite_apply, ↓M.bind_apply,
    ↓M.pure_apply]

theorem noLookup_bind {α β : Type} {x : M α} {f : α → M β} (hx : NoLookup x)
    (hf : ∀ v, NoLookup (f v)) : NoLookup (x >>= f) := by
  refine ⟨fun p => ?_⟩
  have h := hx.keeps p
  rw [M.bind_apply]
  rcases hxp : x p with ⟨v, q⟩ | ⟨h', q⟩
  · rw [hxp] at h; exact ((hf v).keeps q).trans h
  · rw [hxp] at h; exact h

theorem noLookup_pure {α : Type} (v : α) : NoLookup (Pure.pure v : M α) := ⟨fun _ => rfl⟩

theorem noLookup_ite {α : Type} {c : Prop} [Decidable c] {x y : M α} (hx : NoLookup x)
    (hy : NoLookup y) : NoLookup (if c then x else y) := by
  split <;> assumption

theorem noLookup_getApp : NoLookup getApp := ⟨fun _ => rfl⟩

theorem noLookup_modifyApp (f : Application → Application) : NoLookup (modifyApp f) :=
  ⟨fun _ => rfl⟩

theorem noLookup_log (e : LogEntry) : NoLookup (log e) := ⟨fun _ => rfl⟩

theorem noLookup_Exit {α : Type} (c : Nat) (e : Option Error) : NoLookup (Exit c e : M α) :=
  ⟨fun _ => rfl⟩

theorem noLookup_observeCode (c : Nat) : NoLookup (observeCode c) := ⟨fun _ => rfl⟩

theorem noLookup_observeSessionStart : NoLookup observeSessionStart := ⟨fun _ => rfl⟩

theorem noLookup_callHook (r : Receiver) (h : Hook) : NoLookup (callHook r h) := by
  refine ⟨fun p => ?_⟩
  cases r
  · rcases hc : p.app.rootCmd with _ | c <;> simp [callHook, hc, Res.proc]
  · rcases hc : p.app.currentCmd with _ | c <;> simp [callHook, hc, Res.proc]

theorem noLookup_addAppErr (e : Option Error) : NoLookup (addAppErr e) := by
  cases e
  · exact ⟨fun _ => rfl⟩
  · exact ⟨fun _ => rfl⟩

theorem noLookup_executeBeforeFn : NoLookup executeBeforeFn := by
  unfold executeBeforeFn
  repeat' first
    | exact noLookup_getApp
    | exact noLookup_pure _
    | exact noLookup_Exit _ _
    | exact noLookup_callHook _ _
    | apply noLookup_bind
    | apply noLookup_ite
    | intro _
    | split

theorem noLookup_executeAfterAlwaysFn (c : Nat) : NoLookup (executeAfterAlwaysFn c) := by
  unfold executeAfterAlwaysFn
  dsimp only
  repeat' first
    | exact noLookup_getApp
    | exact noLookup_pure _
    | exact noLookup_Exit _ _
    | exact noLookup_callHook _ _
    | exact noLookup_log _
    | exact noLookup_observeCode _
    | exact noLookup_modifyApp _
    | apply noLookup_bind
    | apply noLookup_ite
    | intro _
    | split

/-- The hook pipeline looks up no command. -/
theorem noLookup_execute : NoLookup execute := by
  unfold execute
  dsimp only
  repeat' first
    | exact noLookup_getApp
    | exact noLookup_pure _
    | exact noLookup_Exit _ _
    | exact noLookup_callHook _ _
    | exact noLookup_log _
    | exact noLookup_observeCode _
    | exact noLookup_modifyApp _
    | exact noLookup_addAppErr _
    | exact noLookup_executeBeforeFn
    | exact noLookup_executeAfterAlwaysFn _
    | apply noLookup_bind
    | apply noLookup_ite
    | intro _
    | split

theorem noLookup_run (w : World) : NoLookup (run w) := by
  unfold run
  dsimp only
  repeat' first
    | exact noLookup_pure _
    | exact noLookup_execute
    | apply noLookup_bind
    | apply noLookup_ite
    | intro _
    | split

/-- The part of `start` after command resolution looks up no command. -/
theorem noLookup_startSession (w : World) : NoLookup (startSession w) := by
  unfold startSession
  dsimp only
  repeat' first
    | exact noLookup_getApp
    | exact noLookup_pure _
    | exact noLookup_Exit _ _
    | exact noLookup_modifyApp _
    | exact noLookup_observeSessionStart
    | exact noLookup_run _
    | apply noLookup_bind
    | apply noLookup_ite
    | intro _
    | split

/-- At the end of the addon loop run from the start of the process, no hook
has been called, no command looked up and the session not started. -/
theorem loadAddons_boot_untouched (V : String → Bool) (addons : List Addon) (a : Application)
    (v : Option Error) (q : Proc) (hloop : loadAddons V addons (boot a) = .ok v q) :
    q.calls = [] ∧ q.lookups = [] ∧ q.sessionStartCalled = false := by
  have h := loadAddons_untouched V addons (boot a)
  rw [hloop] at h
  exact h

/-- The range over the command map visits the failing commands in some order:
their `Verify` errors are a rearrangement of those in the order of the list. -/
theorem rangeCommands_verify_perm (w : World) (m : List (String × Command)) :
    ((w.rangeCommands m).filterMap fun kv => kv.2.Verify).Perm
      (m.filterMap fun kv => kv.2.Verify) :=
  (w.rangeCommands_perm m).filterMap _

/-- The range over the command map visits the passing commands in some order. -/
theorem rangeCommands_flagSets_perm (w : World) (m : List (String × Command)) :
    (((w.rangeCommands m).filter fun kv => kv.2.Verify.isNone).map fun kv => kv.2.String).Perm
      ((m.filter fun kv => kv.2.Verify.isNone).map fun kv => kv.2.String) :=
  ((w.rangeCommands_perm m).filter _).map _

/-- Unless the parser fails with an error other than "flag already parsed",
the part of `start` after the addon loop is command resolution followed by
`startSession`, run from the state the verification loop leaves. -/
theorem startCommands_eq_resolve (w : World) (q : Proc) (hparse : ∀ e, w.Parse ≠ .failed e) :
    startCommands w q = (prepareCommand >>= fun _ => startSession w)
      { q with
        app := { q.app with
          errors := q.app.errors ++
            (w.rangeCommands q.app.commands).filterMap fun kv => kv.2.Verify
          flagSets := q.app.flagSets ++
            ((w.rangeCommands q.app.commands).filter fun kv => kv.2.Verify.isNone).map
              fun kv => kv.2.String } } := by
  rcases hp : w.Parse with _ | e | e
  · simp only [startCommands, getApp, verifyCommands_eq, hp, ↓M.bind_apply, ↓M.pure_apply]
  · simp only [startCommands, getApp, verifyCommands_eq, hp, ↓M.bind_apply, ↓M.pure_apply]
  · exact absurd hp (hparse e)

/-- When the parser fails with an error other than "flag already parsed", the
part of `start` after the addon loop returns that error right after the
verification loop: no command is looked up, no hook called, the session not
started and the current command not set. -/
theorem startCommands_parse_fails (w : World) (q : Proc) (e : Error)
    (hparse : w.Parse = .failed e) :
    (startCommands w q).value = some (some e) ∧
    (startCommands w q).proc.lookups = q.lookups ∧
    (startCommands w q).proc.calls = q.calls ∧
    (startCommands w q).proc.sessionStartCalled = q.sessionStartCalled ∧
    (startCommands w q).proc.app.currentCmd = q.app.currentCmd ∧
    (startCommands w q).proc.app.errors = q.app.errors ++
      (w.rangeCommands q.app.commands).filterMap fun kv => kv.2.Verify := by
  simp [startCommands, getApp, verifyCommands_eq, hparse, Res.value, Res.proc, ↓M.bind_apply,
    ↓M.pure_apply]

/-- Unless the parser fails with an error other than "flag already parsed",
the part of `start` after the addon loop runs command resolution: the lookups
of the run are those of `prepareCommand`; and when `prepareCommand` panics, so
does the run, with no hook called, the session not started, and the
accumulator holding the `Verify` errors followed by what `prepareCommand`
appended. -/
theorem startCommands_resolution (w : World) (q : Proc) (hparse : ∀ e, w.Parse ≠ .failed e) :
    (startCommands w q).proc.lookups = (prepareCommand q).proc.lookups ∧
    ∃ extra, extra.length ≤ 1 ∧
      (prepareCommand q).proc.app.errors = q.app.errors ++ extra ∧
      ∀ h, (prepareCommand q).halted = some h →
        (startCommands w q).halted = some h ∧
        (startCommands w q).proc.calls = q.calls ∧
        (startCommands w q).proc.sessionStartCalled = q.sessionStartCalled ∧
        (startCommands w q).proc.app.errors = q.app.errors ++
          ((w.rangeCommands q.app.commands).filterMap fun kv => kv.2.Verify) ++ extra := by
  obtain ⟨e, he, hprep⟩ := prepareCommand_effect q.app
  have hq := hprep q rfl rfl rfl rfl
  have hq1 := hprep
    { q with
      app := { q.app with
        errors := q.app.errors ++
          (w.rangeCommands q.app.commands).filterMap fun kv => kv.2.Verify
        flagSets := q.app.flagSets ++
          ((w.rangeCommands q.app.commands).filter fun kv => kv.2.Verify.isNone).map
            fun kv => kv.2.String } }
    rfl rfl rfl rfl
  have hkeep := (noLookup_startSession w).keeps
  rw [startCommands_eq_resolve w q hparse, M.bind_apply, hq1, hq]
  rcases hh : e.halt with _ | h
  · refine ⟨?_, e.errs, he, ?_, ?_⟩
    · simp only [Effect.apply, hh]
      rw [hkeep]
      rfl
    · simp [Effect.apply, hh, Res.proc]
    · intro h hhalt
      simp [Effect.apply, hh, Res.halted] at hhalt
  · refine ⟨?_, e.errs, he, ?_, ?_⟩
    · simp [Effect.apply, hh, Res.proc]
    · simp [Effect.apply, hh, Res.proc]
    · intro h' hhalt
      simp [Effect.apply, hh, Res.halted] at hhalt
      simp [Effect.apply, hh, Res.halted, Res.proc, hhalt]

/-- With at least one command failing `Verify`, the parser not failing with an
error other than "flag already parsed", and command resolution returning, the
part of `start` after the addon loop returns the uniform error; the
accumulator has gained the `Verify` error of every failing command, in the
order of the range, and at most one error of command resolution; the flag sets
of the passing commands have been added; no hook was called and the session
not started. -/
theorem startCommands_verification_fails (w : World) (q : Proc)
    (hfail : ∃ kv ∈ q.app.commands, kv.2.Verify ≠ none)
    (hparse : ∀ e, w.Parse ≠ .failed e)
    (hresolve : (prepareCommand q).halted = none) :
    (startCommands w q).value = some (some "failed to prepare command") ∧
    (startCommands w q).proc.calls = q.calls ∧
    (startCommands w q).proc.sessionStartCalled = q.sessionStartCalled ∧
    (startCommands w q).proc.app.flagSets = q.app.flagSets ++
      ((w.rangeCommands q.app.commands).filter fun kv => kv.2.Verify.isNone).map
        (fun kv => kv.2.String) ∧
    ∃ extra, extra.length ≤ 1 ∧
      (startCommands w q).proc.app.errors = q.app.errors ++
        ((w.rangeCommands q.app.commands).filterMap fun kv => kv.2.Verify) ++ extra := by
  obtain ⟨e, he, hprep⟩ := prepareCommand_effect q.app
  have hhalt : e.halt = none := by
    rw [← Effect.apply_halted e q, ← hprep q rfl rfl rfl rfl]; exact hresolve
  have hpos : 0 < ((w.rangeCommands q.app.commands).filterMap fun kv => kv.2.Verify).length := by
    obtain ⟨kv, hkv, hne⟩ := hfail
    rcases hv : kv.2.Verify with _ | err
    · exact absurd hv hne
    · exact List.length_pos_of_mem (List.mem_filterMap.2
        ⟨kv, (w.rangeCommands_perm q.app.commands).mem_iff.2 hkv, hv⟩)
  have hq1 := hprep
    { q with
      app := { q.app with
        errors := q.app.errors ++
          (w.rangeCommands q.app.commands).filterMap fun kv => kv.2.Verify
        flagSets := q.app.flagSets ++
          ((w.rangeCommands q.app.commands).filter fun kv => kv.2.Verify.isNone).map
            fun kv => kv.2.String } }
    rfl rfl rfl rfl
  rw [startCommands_eq_resolve w q hparse, M.bind_apply, hq1]
  simp [startSession, getApp, Effect.apply, hhalt, hpos, Res.value, Res.proc, ↓ite_apply,
    ↓M.bind_apply, ↓M.pure_apply]
  exact he

/-- With the root marker as the whole path, no command under the slug, no root
command and no current command, the part of `start` after the addon loop calls
no hook and does not start the session, and command resolution appends nothing
to the accumulator, which holds the `Verify` errors after what it held.  The
run returns the parser's error when the parser fails with an error other than
"flag already parsed"; otherwise it returns the uniform error when the
accumulator is not empty; otherwise it ends the process with code 0 when the
help is displayed, and returns the error "no command" when not. -/
theorem startCommands_no_command (w : World) (q : Proc)
    (htree : q.app.activeSetTree = ["/"])
    (hslug : q.app.commands.lookup q.app.Slug = none)
    (hroot : q.app.rootCmd = none) (hcur : q.app.currentCmd = none) :
    (startCommands w q).proc.calls = q.calls ∧
    (startCommands w q).proc.sessionStartCalled = q.sessionStartCalled ∧
    (startCommands w q).proc.app.errors = q.app.errors ++
      ((w.rangeCommands q.app.commands).filterMap fun kv => kv.2.Verify) ∧
    (∀ e, w.Parse = .failed e → (startCommands w q).value = some (some e)) ∧
    ((∀ e, w.Parse ≠ .failed e) →
      (q.app.errors ++ ((w.rangeCommands q.app.commands).filterMap fun kv => kv.2.Verify) ≠ [] →
        (startCommands w q).value = some (some "failed to prepare command")) ∧
      (q.app.errors ++ ((w.rangeCommands q.app.commands).filterMap fun kv => kv.2.Verify) = [] →
        (w.Help = false → (startCommands w q).value =
          some (some "no command, see (--help) for available commands")) ∧
        (w.Help = true → (startCommands w q).halted = some (.exit 0 none)))) := by
  by_cases hparse : ∀ e, w.Parse ≠ .failed e
  · have h1 := prepareCommand_root_marker_eq
      { q with
        app := { q.app with
          errors := q.app.errors ++
            (w.rangeCommands q.app.commands).filterMap fun kv => kv.2.Verify
          flagSets := q.app.flagSets ++
            ((w.rangeCommands q.app.commands).filter fun kv => kv.2.Verify.isNone).map
              fun kv => kv.2.String } }
      htree
    rw [startCommands_eq_resolve w q hparse, M.bind_apply, h1]
    rcases hE : q.app.errors ++
        ((w.rangeCommands q.app.commands).filterMap fun kv => kv.2.Verify) with _ | ⟨x, xs⟩
    · cases hh : w.Help <;>
      simp [startSession, hslug, hroot, hcur, hE, hh, getApp, modifyApp, Exit, Res.value,
        Res.halted, Res.proc, ↓ite_apply, ↓M.bind_apply, ↓M.pure_apply]
      all_goals exact fun e he => absurd he (hparse e)
    · simp [startSession, hslug, hroot, hcur, hE, getApp, modifyApp, Exit, Res.value,
        Res.halted, Res.proc, ↓ite_apply, ↓M.bind_apply, ↓M.pure_apply]
      exact fun e he => absurd he (hparse e)
  · have hex : ∃ e, w.Parse = .failed e := by
      by_contra hne
      exact hparse fun e he => hne ⟨e, he⟩
    obtain ⟨e, he⟩ := hex
    obtain ⟨h1, _, h3, h4, _, h6⟩ := startCommands_parse_fails w q e he
    refine ⟨h3, h4, h6, ?_, fun hp => absurd he (hp e)⟩
    intro e' he'
    rw [he] at he'
    cases he'
    exact h1

/-- C14, as stated, fails: with the root marker as the whole path, no command
registered and no root command, no addon, the parser succeeding and no help
displayed, `start` returns the error "no command"; `execute` is never started,
so there is no exit code 0. -/
theorem start_no_command_returns_error :
    (start world0 [] (boot app0)).value
      = some (some "no command, see (--help) for available commands") ∧
    (start world0 [] (boot app0)).exitCode = none ∧
    (start world0 [] (boot app0)).proc.calls = [] ∧
    (start world0 [] (boot app0)).proc.app.errors = [] := by
  decide

/-- C14, amended: when `start` gets to the verification of the commands (the
application not started, the completion flag absent, the addon loop run to its
end in state `q`), the activated path is only the root marker and no root
command exists (no top-level command keyed by the slug, no root command and no
current command set): startup never goes on to the hooks.  No hook (so no Do)
is called, the session is not started, and command resolution appends no
error: the accumulator holds what it held and then the `Verify` errors of the
failing commands, in the order of the range.  `start` returns the parser's
error when the parser fails with an error other than "flag already parsed";
otherwise it returns "failed to prepare command" when the accumulator is not
empty (it held an error already, or a command fails `Verify`); otherwise (the
accumulator empty and every command passing `Verify`) it returns the error
"no command, see (--help) for available commands", unless the help is
displayed, which ends the process with code 0. -/
theorem start_no_command (w : World) (addons : List Addon) (a : Application) (q : Proc)
    (hstarted : a.started = false) (hcompl : w.showBashCompletion = false)
    (hloop : loadAddons w.ValidSettingKey addons (boot { a with started := true })
      = .ok none q)
    (htree : q.app.activeSetTree = ["/"])
    (hslug : q.app.commands.lookup q.app.Slug = none)
    (hroot : q.app.rootCmd = none) (hcur : q.app.currentCmd = none) :
    (start w addons (boot a)).proc.calls = [] ∧
    (start w addons (boot a)).proc.sessionStartCalled = false ∧
    (∃ verrs, verrs.Perm (q.app.commands.filterMap fun kv => kv.2.Verify) ∧
      (start w addons (boot a)).proc.app.errors = q.app.errors ++ verrs) ∧
    (∀ e, w.Parse = .failed e → (start w addons (boot a)).value = some (some e)) ∧
    ((∀ e, w.Parse ≠ .failed e) →
      ((q.app.errors ≠ [] ∨ ∃ kv ∈ q.app.commands, kv.2.Verify ≠ none) →
        (start w addons (boot a)).value = some (some "failed to prepare command")) ∧
      (q.app.errors = [] → (∀ kv ∈ q.app.commands, kv.2.Verify = none) →
        (w.Help = false → (start w addons (boot a)).value =
          some (some "no command, see (--help) for available commands")) ∧
        (w.Help = true → (start w addons (boot a)).halted = some (.exit 0 none)))) := by
  obtain ⟨hc, _, hs⟩ := loadAddons_boot_untouched _ _ _ _ _ hloop
  rw [start_eq_startCommands w addons a q hstarted hcompl hloop]
  obtain ⟨h1, h2, h3, h4, h5⟩ := startCommands_no_command w q htree hslug hroot hcur
  have hmem := fun kv => (w.rangeCommands_perm q.app.commands).mem_iff (a := kv)
  refine ⟨h1.trans hc, h2.trans hs, ⟨_, rangeCommands_verify_perm w q.app.commands, h3⟩, h4,
    fun hparse => ⟨fun hne => (h5 hparse).1 ?_, fun herrs hverify => (h5 hparse).2 ?_⟩⟩
  · rcases hne with hne | ⟨kv, hkv, hv⟩
    · intro h
      exact hne (List.append_eq_nil.1 h).1
    · intro h
      have hnil := (List.append_eq_nil.1 h).2
      rcases hv' : kv.2.Verify with _ | err
      · exact hv hv'
      · have hin : err ∈ (w.rangeCommands q.app.commands).filterMap fun kv => kv.2.Verify :=
          List.mem_filterMap.2 ⟨kv, (hmem kv).2 hkv, hv'⟩
        rw [hnil] at hin
        cases hin
  · rw [herrs, List.nil_append]
    exact List.filterMap_eq_nil_iff.2 fun kv hkv => hverify kv ((hmem kv).1 hkv)

/-- C14 amended, at the run of the counterexample, and at a run in which a
command fails `Verify`. -/
theorem start_no_command_witness :
    (start world0 [] (boot app0)).value
      = some (some "no command, see (--help) for available commands") ∧
    (start world0 [] (boot app0)).proc.calls = [] ∧
    (start world0 [] (boot appBadCommand)).value = some (some "failed to prepare command") :=
  ⟨((start_no_command world0 [] app0 (boot app0Started) rfl rfl rfl rfl rfl rfl rfl).2.2.2.2
      (by intro e h; cases h)).2 rfl (by intro kv hkv; cases hkv) |>.1 rfl,
   (start_no_command world0 [] app0 (boot app0Started) rfl rfl rfl rfl rfl rfl rfl).1,
   ((start_no_command world0 [] appBadCommand (boot appBadCommandStarted) rfl rfl rfl rfl rfl
      rfl rfl).2.2.2.2 (by intro e h; cases h)).1
      (Or.inr ⟨("bad", cmdBad), List.mem_cons_of_mem _ (List.mem_cons_self _ _), by decide⟩)⟩

/-- When the addon loop has run to its end in state `q`, at least one command
of `q` fails `Verify`, the completion flag is absent, the parser does not fail
with an error other than "flag already parsed", and command resolution on the
command map returns: `start` returns the uniform error "failed to prepare
command" without starting the session or calling any hook; the accumulator has
received the `Verify` error of every failing command, in the order of the
range, followed by at most one error of command resolution; and the flag sets
of the passing commands, and only those, have been added to the global flag
set. -/
theorem start_verification_fails_when_resolved (w : World) (addons : List Addon)
    (a : Application) (q : Proc)
    (hstarted : a.started = false) (hcompl : w.showBashCompletion = false)
    (hloop : loadAddons w.ValidSettingKey addons (boot { a with started := true })
      = .ok none q)
    (hfail : ∃ kv ∈ q.app.commands, kv.2.Verify ≠ none)
    (hparse : ∀ e, w.Parse ≠ .failed e)
    (hresolve : (prepareCommand q).halted = none) :
    (start w addons (boot a)).value = some (some "failed to prepare command") ∧
    (start w addons (boot a)).proc.calls = [] ∧
    (start w addons (boot a)).proc.sessionStartCalled = false ∧
    ∃ verrs sets extra,
      verrs.Perm (q.app.commands.filterMap fun kv => kv.2.Verify) ∧
      sets.Perm ((q.app.commands.filter fun kv => kv.2.Verify.isNone).map
        fun kv => kv.2.String) ∧
      extra.length ≤ 1 ∧
      (start w addons (boot a)).proc.app.errors = q.app.errors ++ verrs ++ extra ∧
      (start w addons (boot a)).proc.app.flagSets = q.app.flagSets ++ sets := by
  obtain ⟨hc, _, hs⟩ := loadAddons_boot_untouched _ _ _ _ _ hloop
  rw [start_eq_startCommands w addons a q hstarted hcompl hloop]
  obtain ⟨h1, h2, h3, h4, extra, h5, h6⟩ :=
    startCommands_verification_fails w q hfail hparse hresolve
  exact ⟨h1, h2.trans hc, h3.trans hs, _, _, extra, rangeCommands_verify_perm w q.app.commands,
    rangeCommands_flagSets_perm w q.app.commands, h5, h6, h4⟩

/-- C15 fails at this input: the top-level commands are `serve`, which passes
`Verify` and has no subcommand, and `bad`, which fails `Verify`; the activated
path is `/`, `serve`, `http`; there is no addon, the completion flag is absent
and flag parsing succeeds.  Whatever the order in which the command map is
ranged over, and whatever the other collaborators answer, `start` does not
return the uniform error: it panics in command resolution, on a nil
dereference.  The accumulator holds the `Verify` error of `bad` and nothing
of command resolution; no hook is called and the session is not started. -/
theorem start_verification_fails_panics (w : World)
    (hcompl : w.showBashCompletion = false) (hparse : w.Parse = .ok) :
    (start w [] (boot appBadCommandUnknownSubcommand)).halted =
      some (.panic "nil pointer dereference") ∧
    (start w [] (boot appBadCommandUnknownSubcommand)).value = none ∧
    (start w [] (boot appBadCommandUnknownSubcommand)).proc.app.errors =
      ["bad: flag name conflict"] ∧
    (start w [] (boot appBadCommandUnknownSubcommand)).proc.lookups = ["serve", "http"] ∧
    (start w [] (boot appBadCommandUnknownSubcommand)).proc.calls = [] ∧
    (start w [] (boot appBadCommandUnknownSubcommand)).proc.sessionStartCalled = false := by
  have hnf : ∀ e, w.Parse ≠ .failed e := by
    intro e h
    rw [hparse] at h
    cases h
  rw [start_eq_startCommands w [] appBadCommandUnknownSubcommand
    (boot appBadCommandUnknownSubcommandStarted) rfl hcompl rfl]
  obtain ⟨hlook, extra, _, hextra, hpanic⟩ :=
    startCommands_resolution w (boot appBadCommandUnknownSubcommandStarted) hnf
  have hp : (prepareCommand (boot appBadCommandUnknownSubcommandStarted)).halted =
      some (.panic "nil pointer dereference") := by decide
  have he : (prepareCommand (boot appBadCommandUnknownSubcommandStarted)).proc.app.errors = [] := by
    decide
  have hl : (prepareCommand (boot appBadCommandUnknownSubcommandStarted)).proc.lookups =
      ["serve", "http"] := by decide
  obtain ⟨h1, h2, h3, h4⟩ := hpanic _ hp
  have hnil : extra = [] := by
    rw [he] at hextra
    exact (List.append_eq_nil.1 hextra.symm).2
  have hverr := List.perm_singleton.1
    (rangeCommands_verify_perm w (boot appBadCommandUnknownSubcommandStarted).app.commands)
  refine ⟨h1, ?_, ?_, hlook.trans hl, h2, h3⟩
  · cases hres : startCommands w (boot appBadCommandUnknownSubcommandStarted) with
    | ok v p => rw [hres] at h1; cases h1
    | halt h p => rfl
  · rw [h4, hnil]
    exact (congrArg (fun l => ([] : List Error) ++ l ++ []) hverr).trans rfl

/-- C15 at its failing input, with the command map ranged over in the order of
its list and in the reverse order. -/
theorem start_verification_fails_panics_witness :
    (start world0 [] (boot appBadCommandUnknownSubcommand)).halted =
      some (.panic "nil pointer dereference") ∧
    (start worldReversed [] (boot appBadCommandUnknownSubcommand)).halted =
      some (.panic "nil pointer dereference") ∧
    (start world0 [] (boot appBadCommandUnknownSubcommand)).proc.app.errors =
      ["bad: flag name conflict"] :=
  ⟨(start_verification_fails_panics world0 rfl rfl).1,
   (start_verification_fails_panics worldReversed rfl rfl).1,
   (start_verification_fails_panics world0 rfl rfl).2.2.1⟩

/-- C17: in `start`, a parser failing with the "flag already parsed" condition
gives exactly the run a succeeding parser gives, from every state.  When
`start` gets to the parser (application not started, completion flag absent,
addon loop run to its end in state `q`) and the parser fails with that
condition, the run goes on to command resolution: the commands looked up are
those `prepareCommand` looks up on the commands of `q`, and a panic of
`prepareCommand` is a panic of `start`.  When instead the parser fails with
any other error `e`, `start` returns `e`: no command is looked up, no hook is
called, the session is not started and the current command is left as it
was. -/
theorem start_parse_errors (w : World) (addons : List Addon) (a : Application) (q : Proc)
    (e : Error)
    (hstarted : a.started = false) (hcompl : w.showBashCompletion = false)
    (hloop : loadAddons w.ValidSettingKey addons (boot { a with started := true })
      = .ok none q) :
    (∀ p : Proc, start { w with Parse := .flagAlreadyParsed e } addons p =
      start { w with Parse := .ok } addons p) ∧
    (w.Parse = .flagAlreadyParsed e →
      (start w addons (boot a)).proc.lookups = (prepareCommand q).proc.lookups ∧
      ∀ h, (prepareCommand q).halted = some h → (start w addons (boot a)).halted = some h) ∧
    (w.Parse = .failed e →
      (start w addons (boot a)).value = some (some e) ∧
      (start w addons (boot a)).proc.lookups = [] ∧
      (start w addons (boot a)).proc.calls = [] ∧
      (start w addons (boot a)).proc.sessionStartCalled = false ∧
      (start w addons (boot a)).proc.app.currentCmd = q.app.currentCmd) := by
  refine ⟨fun p => ?_, fun hparse => ?_, fun hparse => ?_⟩
  · simp [start, startCommands, startSession, run]
  · have hnf : ∀ e', w.Parse ≠ .failed e' := by
      intro e' h
      rw [hparse] at h
      cases h
    rw [start_eq_startCommands w addons a q hstarted hcompl hloop]
    obtain ⟨hlook, extra, _, _, hpanic⟩ := startCommands_resolution w q hnf
    exact ⟨hlook, fun h hh => (hpanic h hh).1⟩
  · obtain ⟨hc, hl, hs⟩ := loadAddons_boot_untouched _ _ _ _ _ hloop
    rw [start_eq_startCommands w addons a q hstarted hcompl hloop]
    obtain ⟨h1, h2, h3, h4, h5, _⟩ := startCommands_parse_fails w q e hparse
    exact ⟨h1, h2.trans hl, h3.trans hc, h4.trans hs, h5⟩

/-- C17 at concrete runs: with the "flag already parsed" condition the run is
the run of a succeeding parser; with the path `/`, `serve`, `http` both
segments are looked up, and with the path of C9 the panic of command
resolution is reached; with the parser failing with "unknown flag", the error
is returned and nothing looked up or called. -/
theorem start_parse_errors_witness :
    start worldFlagAlreadyParsed [] (boot appResolves) = start world0 [] (boot appResolves) ∧
    (start worldFlagAlreadyParsed [] (boot appResolves)).proc.lookups = ["serve", "http"] ∧
    (start worldFlagAlreadyParsed [] (boot appBadCommandUnknownSubcommand)).halted =
      some (.panic "nil pointer dereference") ∧
    (start worldParseFails [] (boot app0)).value = some (some "unknown flag") ∧
    (start worldParseFails [] (boot app0)).proc.lookups = [] ∧
    (start worldParseFails [] (boot app0)).proc.calls = [] :=
  ⟨(start_parse_errors world0 [] appResolves (boot appResolvesStarted)
      "flag already parsed" rfl rfl rfl).1 (boot appResolves),
   ((start_parse_errors worldFlagAlreadyParsed [] appResolves (boot appResolvesStarted)
      "flag already parsed" rfl rfl rfl).2.1 rfl).1.trans (by decide),
   ((start_parse_errors worldFlagAlreadyParsed [] appBadCommandUnknownSubcommand
      (boot appBadCommandUnknownSubcommandStarted) "flag already parsed" rfl rfl rfl).2.1 rfl).2
      _ (by decide),
   ((start_parse_errors worldParseFails [] app0 (boot app0Started) "unknown flag" rfl rfl
      rfl).2.2 rfl).1,
   ((start_parse_errors worldParseFails [] app0 (boot app0Started) "unknown flag" rfl rfl
      rfl).2.2 rfl).2.1,
   ((start_parse_errors worldParseFails [] app0 (boot app0Started) "unknown flag" rfl rfl
      rfl).2.2 rfl).2.2.1⟩

end Happy
